import Mathlib

/-!
Verification of the FileMetadataSync repository against its specification.

Strings are modelled at the level of Unicode code points (`List Char`),
matching Python `str` semantics.  Timestamps are modelled as naturals,
file bytes as `List Nat`.  External collaborators (hashlib, mimetypes,
the float formatter) are passed in as explicit function parameters.
-/

namespace FMS

/-! ## §1  Path sanitizer — `src/storage_upload.py` -/

/-- `CHAR_REPLACEMENTS` from `src/storage_upload.py`, in dict insertion order.
Each single-character key is replaced by the given string. -/
def charReplacements : List (Char × List Char) :=
  [ ('ä', ['a','e']), ('ö', ['o','e']), ('ü', ['u','e']), ('ß', ['s','s']),
    ('Ä', ['A','e']), ('Ö', ['O','e']), ('Ü', ['U','e']),
    ('[', ['(']), (']', [')']),
    ('{', ['(']), ('}', [')']),
    ('#', ['_']), ('%', ['_']), ('&', ['_']), ('*', ['_']),
    ('<', ['_']), ('>', ['_']), ('|', ['_']), ('"', ['_']),
    ('?', ['_']), ('\\', ['_']), (':', ['_']) ]

/-- Python `str.replace` with a single-character pattern. -/
def replaceChar (key : Char) (val : List Char) : List Char → List Char
  | [] => []
  | c :: r => (if c = key then val else [c]) ++ replaceChar key val r

/-- The sequential `name = name.replace(char, replacement)` loop over
`CHAR_REPLACEMENTS`. -/
def applyReplacements (s : List Char) : List Char :=
  charReplacements.foldl (fun acc kv => replaceChar kv.1 kv.2 acc) s

/-- Modelled from the spec: Python `unicodedata.normalize("NFKD", ·)`
(standard-library collaborator, not part of this repository).  NFKD is the
identity on ASCII; the table below carries the decompositions of the
non-ASCII characters exercised in this development.  Note that real NFKD
compatibility decompositions can produce ASCII characters that are
`CHAR_REPLACEMENTS` keys, `/` or `_` — e.g. the fullwidth forms
`＃ → #`, `／ → /` and `＿ → _` — which is why the sanitizer is not
idempotent in general. -/
def nfkdChar (c : Char) : List Char :=
  if c.toNat < 128 then [c]
  else if c = 'é' then ['e', '́']
  else if c = 'è' then ['e', '̀']
  else if c = 'ñ' then ['n', '̃']
  else if c = 'å' then ['a', '̊']
  else if c = '＃' then ['#']
  else if c = '／' then ['/']
  else if c = '＿' then ['_']
  else [c]

/-- NFKD applied to a whole string. -/
def applyNfkd (s : List Char) : List Char := (s.map nfkdChar).flatten

/-- Modelled from the spec: Python `unicodedata.combining c != 0`
(standard-library collaborator).  Combining marks are non-ASCII. -/
def combiningChar (c : Char) : Bool :=
  c = '́' ∨ c = '̀' ∨ c = '̃' ∨ c = '̊'

/-- `''.join(c for c in name if not unicodedata.combining(c))`. -/
def stripCombining (s : List Char) : List Char :=
  s.filter (fun c => ¬ combiningChar c)

/-- `re.sub(r'[^\x00-\x7F]', '_', name)`: replace code points above 127. -/
def asciiClean (s : List Char) : List Char :=
  s.map (fun c => if c.toNat < 128 then c else '_')

/-- Helper for `re.sub(r'_+', '_', name)`: the previous input character is
tracked so that an underscore following an underscore is dropped. -/
def collapseAux : Option Char → List Char → List Char
  | _, [] => []
  | prev, c :: r =>
      if c = '_' ∧ prev = some '_' then collapseAux (some c) r
      else c :: collapseAux (some c) r

/-- `re.sub(r'_+', '_', name)`: collapse runs of underscores. -/
def collapseUnderscores (s : List Char) : List Char := collapseAux none s

/-- `sanitize_filename` from `src/storage_upload.py`: replacements, NFKD,
strip combining marks, replace residual non-ASCII with `_`, collapse `_+`. -/
def sanitize_filename (s : List Char) : List Char :=
  collapseUnderscores (asciiClean (stripCombining (applyNfkd (applyReplacements s))))

/-- No two adjacent underscores (the state `collapseUnderscores` leaves its
output in). -/
def noDoubleU : List Char → Bool
  | c1 :: c2 :: r => !(c1 = '_' && c2 = '_') && noDoubleU (c2 :: r)
  | _ => true

/-- The output alphabet the spec asserts for the sanitizer:
`A-Za-z0-9._()-`, `/` and `_`.  This definition follows the spec's words, to
be compared with the code's behaviour. -/
def specAllowedChar (c : Char) : Bool :=
  ('A' ≤ c ∧ c ≤ 'Z') ∨ ('a' ≤ c ∧ c ≤ 'z') ∨ ('0' ≤ c ∧ c ≤ '9') ∨
    c = '.' ∨ c = '_' ∨ c = '(' ∨ c = ')' ∨ c = '/' ∨ c = '-'

/-- Python `s.split(sep)` (single-character separator), accumulator form. -/
def pySplitAux (sep : Char) : List Char → List Char → List (List Char)
  | acc, [] => [acc.reverse]
  | acc, c :: r =>
      if c = sep then acc.reverse :: pySplitAux sep [] r
      else pySplitAux sep (c :: acc) r

/-- Python `s.split(sep)`; on the empty string this is `[""]`. -/
def pySplit (sep : Char) (s : List Char) : List (List Char) :=
  pySplitAux sep [] s

/-- Python `sep.join(parts)`. -/
def pyJoin (sep : Char) : List (List Char) → List Char
  | [] => []
  | [x] => x
  | x :: y :: r => x ++ sep :: pyJoin sep (y :: r)

/-- `sanitize_path` from `src/storage_upload.py`: sanitize each `/`-separated
segment and re-join. -/
def sanitize_path (s : List Char) : List Char :=
  pyJoin '/' ((pySplit '/' s).map sanitize_filename)

/-! ## §2  Event queue — `src/watcher.py` -/

/-- `EventType` from `src/watcher.py`. -/
inductive EventType
  | created
  | modified
  | moved
deriving DecidableEq

/-- `PendingEvent` from `src/watcher.py`.  `path` is `str(event.path)`;
timestamps (`time.time()` floats) are modelled as integers, only their
ordering matters. -/
structure PendingEvent where
  path : String
  event_type : EventType
  timestamp : Int
  dest_path : Option String := none
deriving DecidableEq

/-- The `EventQueue._events` dict: association list `str(path) ↦ event`. -/
abbrev EventMap := List (String × PendingEvent)

/-- `EventQueue.add`: dict assignment `self._events[str(event.path)] = event`
— replaces the entry for the path in place, or appends a new one. -/
def queueAdd (q : EventMap) (e : PendingEvent) : EventMap :=
  if (q.find? (fun p => p.1 == e.path)).isSome then
    q.map (fun p => if p.1 == e.path then (e.path, e) else p)
  else q ++ [(e.path, e)]

/-- `EventQueue.get_ready`: returns the events with
`timestamp < now - debounce_seconds` and removes them from the dict.
Result: (ready events, remaining queue). -/
def get_ready (debounce now : Int) (q : EventMap) : List PendingEvent × EventMap :=
  ((q.filter (fun p => p.2.timestamp < now - debounce)).map (fun p => p.2),
   q.filter (fun p => ¬ p.2.timestamp < now - debounce))

/-! ## §3  Registrar and reconciler — `src/sync.py` -/

/-- A `pathlib.Path` to an absolute location, as its list of segments
(`Path("/a/b").segs = ["a","b"]`). -/
structure PyPath where
  segs : List String
deriving DecidableEq

/-- `Path.name`: the final path component (empty for the root). -/
def PyPath.name (p : PyPath) : String := p.segs.getLast?.getD ""

/-- `str(path)` for an absolute path. -/
def pathStr (p : PyPath) : String := "/" ++ String.intercalate "/" p.segs

/-- `Path.parent`. -/
def PyPath.parent (p : PyPath) : PyPath := ⟨p.segs.dropLast⟩

/-- `Path.suffix` on a name: the part from the last dot, non-empty only when
the dot is strictly inside the name (CPython pathlib semantics). -/
def nameSuffix (name : List Char) : List Char :=
  let rtw := name.reverse.takeWhile (fun c => c ≠ '.')
  if rtw.length + 1 < name.length ∧ 0 < rtw.length then '.' :: rtw.reverse else []

/-- `Path.suffix`. -/
def PyPath.suffix (p : PyPath) : String := String.mk (nameSuffix p.name.data)

/-- `str.lower()`, modelled on the ASCII range (the suffixes compared in the
code are ASCII). -/
def lowerStr (s : String) : String := String.mk (s.data.map Char.toLower)

/-- External collaborators of `src/sync.py`: `hashlib.sha256(...).hexdigest()`
and `mimetypes.guess_type(str(path))[0]`, passed in as opaque functions. -/
structure PyEnv where
  sha256hex : List Nat → String
  guessMime : String → Option String

/-- The observable filesystem state of one path: bytes readable through a
following `open()` (`none` = OSError), a following `os.stat` (`statOk`),
`lstat`-level attributes, and whether a symlink's resolution escapes the
source base (a fact the code never consults). -/
structure FileInfo where
  bytes : Option (List Nat)
  statOk : Bool
  size : Nat
  mode : Nat
  uid : Nat
  gid : Nat
  isSymlink : Bool
  ctime : Nat
  mtime : Nat
  resolvedEscapesBase : Bool
deriving DecidableEq

/-- `compute_hash_streaming`: SHA-256 hex of the bytes, `None` when the file
cannot be opened or read. -/
def compute_hash_streaming (env : PyEnv) (fi : FileInfo) : Option String :=
  fi.bytes.map env.sha256hex

/-- The `fs_attributes` dict built by `extract_file_metadata`;
`mode_octal` (`oct(st.st_mode)[-3:]`) is carried as the value it denotes. -/
structure FsAttributes where
  size_bytes : Nat
  mode_octal : Nat
  uid : Nat
  gid : Nat
  is_symlink : Bool
deriving DecidableEq

/-- The `auto_metadata` dict built by `extract_file_metadata`. -/
structure AutoMeta where
  mime_type : Option String
  extension : Option String
  original_filename : String
  original_path : String
  source_base : String
deriving DecidableEq

/-- The metadata record returned by `extract_file_metadata`; timestamps are
naturals standing for the ISO strings. -/
structure Metadata where
  filename : String
  folder_path : String
  file_created_at : Nat
  file_modified_at : Nat
  filesystem_attributes : FsAttributes
  auto_extracted_metadata : AutoMeta
deriving DecidableEq

/-- The `folder_path` computation of `extract_file_metadata`:
`relative_to(source_base)` succeeds iff the base's segments are a prefix;
then prefix the base's final name, falling back to `str(filepath.parent)`. -/
def folderPathOf (filepath source_base : PyPath) : String :=
  if source_base.segs.isPrefixOf filepath.segs then
    let rel := filepath.segs.drop source_base.segs.length
    if 2 ≤ rel.length then
      source_base.name ++ "/" ++ String.intercalate "/" rel.dropLast
    else source_base.name
  else pathStr filepath.parent

/-- `extract_file_metadata` from `src/sync.py`: `os.stat` (following), then
the metadata dict; returns `{}` (here `none`) when the stat raises. -/
def extract_file_metadata (env : PyEnv) (filepath source_base : PyPath)
    (fi : FileInfo) : Option Metadata :=
  if fi.statOk then
    some
      { filename := filepath.name
        folder_path := folderPathOf filepath source_base
        file_created_at := fi.ctime
        file_modified_at := fi.mtime
        filesystem_attributes :=
          { size_bytes := fi.size, mode_octal := fi.mode % 512,
            uid := fi.uid, gid := fi.gid, is_symlink := fi.isSymlink }
        auto_extracted_metadata :=
          { mime_type := env.guessMime (pathStr filepath)
            extension :=
              if filepath.suffix ≠ "" then some (lowerStr filepath.suffix) else none
            original_filename := filepath.name
            original_path := pathStr filepath
            source_base := pathStr source_base } }
  else none

/-- A row of the `files` table in the `src/sync.py` schema
(keyed by `(folder_path, filename)`). -/
structure FileRow where
  id : Nat
  content_hash : Option String
  storage_path : Option String
  last_seen_at : Nat
  deleted_at : Option Nat
  db_updated_at : Nat
  meta : Metadata
deriving DecidableEq

/-- A `hash_map` entry of `fetch_existing_files`. -/
structure HashEntry where
  id : Nat
  filename : String
  folder_path : String
deriving DecidableEq

/-- A `path_map` entry of `fetch_existing_files`. -/
structure PathEntry where
  id : Nat
  content_hash : Option String
deriving DecidableEq

/-- Python dict lookup on an association list. -/
def alistGet {α β : Type} [BEq α] (m : List (α × β)) (k : α) : Option β :=
  (m.find? (fun p => p.1 == k)).map (fun p => p.2)

/-- Python dict assignment on an association list. -/
def alistSet {α β : Type} [BEq α] (m : List (α × β)) (k : α) (v : β) :
    List (α × β) :=
  if (m.find? (fun p => p.1 == k)).isSome then
    m.map (fun p => if p.1 == k then (k, v) else p)
  else m ++ [(k, v)]

/-- The remote state touched by `process_single_file`: the `files` table, the
storage bucket's objects, and the shared in-memory maps. -/
structure SyncState where
  files : List FileRow
  storage : List (String × List Nat)
  hash_map : List (String × HashEntry)
  path_map : List ((String × String) × PathEntry)
deriving DecidableEq

/-- Outcomes of the remote calls made by `process_single_file`: whether each
one succeeds or raises. -/
structure ClientFaults where
  updateLastSeenOk : Bool
  uploadOk : Bool
  upsertOk : Bool
  removeOk : Bool
deriving DecidableEq

/-- The `(filename, action, message)` triple returned by
`process_single_file`, together with the state it leaves behind. -/
structure ProcResult where
  filename : String
  action : String
  message : String
  state : SyncState
deriving DecidableEq

/-- The upload-and-upsert branch of `process_single_file` (new or changed
content): storage key `uuid4() + extension`, then upsert on
`(folder_path, filename)`, with blob cleanup when the upsert fails on a
brand-new path. -/
def registrarUploadBranch (faults : ClientFaults) (filepath : PyPath)
    (fi : FileInfo) (st : SyncState) (now : Nat) (uuidStr : String)
    (newId : Nat) (metadata : Metadata) (content_hash : String)
    (existing_path : Option PathEntry) : ProcResult :=
  let filename := filepath.name
  let folder_path := metadata.folder_path
  let extension := lowerStr filepath.suffix
  let storage_path := uuidStr ++ extension
  match fi.bytes with
  | none => ⟨filename, "error", "upload failed", st⟩
  | some file_data =>
    if faults.uploadOk ∧ (alistGet st.storage storage_path).isNone then
      let st1 : SyncState := { st with storage := st.storage ++ [(storage_path, file_data)] }
      if faults.upsertOk then
        let hit := st1.files.find? (fun r =>
          r.meta.folder_path == folder_path && r.meta.filename == filename)
        let file_id := (hit.map (fun r => r.id)).getD newId
        let files' :=
          match hit with
          | some _ =>
            st1.files.map (fun r =>
              if r.meta.folder_path == folder_path && r.meta.filename == filename then
                { r with content_hash := some content_hash,
                         storage_path := some storage_path,
                         last_seen_at := now, deleted_at := none,
                         db_updated_at := now, meta := metadata }
              else r)
          | none =>
            st1.files ++ [⟨newId, some content_hash, some storage_path, now, none, now, metadata⟩]
        ⟨filename, "uploaded", "upserted → " ++ toString file_id,
          { st1 with
            files := files'
            hash_map := alistSet st1.hash_map content_hash ⟨file_id, filename, folder_path⟩
            path_map := alistSet st1.path_map (folder_path, filename) ⟨file_id, some content_hash⟩ }⟩
      else
        let storage' :=
          if existing_path = none ∧ faults.removeOk then
            st1.storage.filter (fun p => p.1 ≠ storage_path)
          else st1.storage
        ⟨filename, "error", "db upsert failed", { st1 with storage := storage' }⟩
    else ⟨filename, "error", "upload failed", st⟩

/-- `process_single_file` from `src/sync.py`: hash, extract metadata, compare
with the `path_map` snapshot, then either touch `last_seen_at` (unchanged) or
upload a fresh blob and upsert the row. -/
def process_single_file (env : PyEnv) (faults : ClientFaults)
    (filepath source_base : PyPath) (fi : FileInfo) (st : SyncState)
    (now : Nat) (uuidStr : String) (newId : Nat) : ProcResult :=
  let filename := filepath.name
  match compute_hash_streaming env fi with
  | none => ⟨filename, "error", "hash failed", st⟩
  | some content_hash =>
    match extract_file_metadata env filepath source_base fi with
    | none => ⟨filename, "error", "metadata extraction failed", st⟩
    | some metadata =>
      let folder_path := metadata.folder_path
      let path_key := (folder_path, filename)
      match alistGet st.path_map path_key with
      | some ep =>
        if ep.content_hash = some content_hash then
          if faults.updateLastSeenOk then
            ⟨filename, "unchanged", "unchanged",
              { st with files := st.files.map (fun r =>
                  if r.id = ep.id then { r with last_seen_at := now } else r) }⟩
          else ⟨filename, "unchanged", "last_seen_at update failed", st⟩
        else
          registrarUploadBranch faults filepath fi st now uuidStr newId
            metadata content_hash (some ep)
      | none =>
        registrarUploadBranch faults filepath fi st now uuidStr newId
          metadata content_hash none

/-- One iteration of the soft-delete loop at the end of `run_full_scan`: the
PATCH with filters `last_seen_at < scan_start`, `deleted_at is null` and
`auto_extracted_metadata->>source_base == source_path_str`, which sets
`deleted_at = scan_start`. -/
def sweepSoftDelete (rows : List FileRow) (scanStart : Nat)
    (sourcePathStr : String) : List FileRow :=
  rows.map (fun r =>
    if r.last_seen_at < scanStart ∧ r.deleted_at = none ∧
        r.meta.auto_extracted_metadata.source_base = sourcePathStr then
      { r with deleted_at := some scanStart }
    else r)

/-- The whole soft-delete phase of `run_full_scan`: one PATCH per configured
source path, in order. -/
def runSoftDeleteSweep (rows : List FileRow) (scanStart : Nat)
    (sourcePaths : List String) : List FileRow :=
  sourcePaths.foldl (fun acc sp => sweepSoftDelete acc scanStart sp) rows

/-- A row of the `files` table in the `src/postgrest.py` schema
(keyed by `full_path`). -/
structure RestFileRow where
  full_path : String
  content_hash : Option String
  last_seen_at : Nat
  deleted_at : Option Nat
deriving DecidableEq

/-- `PostgRESTClient.mark_deleted` from `src/postgrest.py`: PATCH with
filters `last_seen_at < before_timestamp`, `deleted_at is null`,
`full_path like path_pfx*`; sets `deleted_at = now` and returns the count.
(This client is defined in the repository but never invoked by
`run_full_scan`.) -/
def mark_deleted (rows : List RestFileRow) (pathPfx : String)
    (beforeTs now : Nat) : List RestFileRow × Nat :=
  let hit := fun (r : RestFileRow) =>
    r.last_seen_at < beforeTs ∧ r.deleted_at = none ∧
      pathPfx.data.isPrefixOf r.full_path.data = true
  (rows.map (fun r => if hit r then { r with deleted_at := some now } else r),
   (rows.filter (fun r => hit r)).length)

/-! ## §4  Uploader — `src/uploader.py` -/

/-- `MAX_UPLOAD_SIZE_BYTES = 100 * 1024 * 1024` from `src/uploader.py`. -/
def maxUploadSizeBytes : Nat := 100 * 1024 * 1024

/-- An item dequeued by `dequeue_upload_batch` (fields read by
`process_upload`). -/
structure UploadItem where
  content_hash : String
  full_path : String
  size_bytes : Nat
deriving DecidableEq

/-- The local filesystem as `process_upload` observes it: `Path.exists()`,
`stat().st_size` (`none` = the stat raises), and `open().read()`
(`none` = the read raises). -/
structure LocalFile where
  pathExists : Bool
  statSize : Option Nat
  bytes : Option (List Nat)
deriving DecidableEq

/-- External collaborators of `src/uploader.py`: MIME inference, the Python
float formatter used in the too-large reason, and the messages of the
exceptions the local OS calls may raise. -/
structure UpEnv where
  guessMime : String → Option String
  fmtMB : Nat → String
  statErrMsg : String
  readErrMsg : String
  completeErrMsg : String

/-- Outcomes of the remote calls made by `process_upload`: the storage PUT
(`some msg` = it raises with that message) and the three RPCs. -/
structure UpFaults where
  uploadErr : Option String
  markCompleteOk : Bool
  markFailedRpcOk : Bool
  markSkippedRpcOk : Bool
deriving DecidableEq

/-- `upload_status` of a content row (§3 of the spec). -/
inductive UploadStatus
  | pending
  | uploading
  | uploaded
  | failedStatus
  | skipped
deriving DecidableEq

/-- The observable calls `process_upload` makes against storage and the
metadata API. -/
inductive UpEvent
  | storagePut (key : String) (bytes : List Nat) (contentType : String)
      (upsert : Bool)
  | markFailed (hash : String) (error : String)
  | markSkipped (hash : String) (reason : String)
  | markComplete (hash : String) (storagePath : String) (mime : String)
deriving DecidableEq

/-- Modelled from the spec: the server-side effect of a successful
`mark_upload_failed` RPC — the row reverts to `pending` (retry); the SQL
function itself is not under `src/`. -/
def rpcFailedStatus : UploadStatus := UploadStatus.pending

/-- Modelled from the spec: `reset_stuck_uploads` reverts `uploading` rows
to `pending` and leaves the rest alone; the SQL function is not under
`src/`. -/
def reset_stuck_uploads_status : UploadStatus → UploadStatus
  | UploadStatus.uploading => UploadStatus.pending
  | s => s

/-- The body of the `try:` block of `Uploader.process_upload`, for one
dequeued item whose content row is in `status`.  Returns the calls made so
far, the row's status afterwards, and `some msg` when the body raises
(`none` when it returns normally).  The `_mark_failed` / `_mark_skipped`
helpers swallow their own RPC failures, so a failed RPC leaves the status
unchanged and raises nothing. -/
def uploaderBody (env : UpEnv) (faults : UpFaults) (item : UploadItem)
    (lf : LocalFile) (status : UploadStatus) :
    List UpEvent × UploadStatus × Option String :=
  if ¬ lf.pathExists then
    ([UpEvent.markFailed item.content_hash "File missing on disk"],
     (if faults.markFailedRpcOk then rpcFailedStatus else status), none)
  else
    match lf.statSize with
    | none => ([], status, some env.statErrMsg)
    | some actual_size =>
      if actual_size > maxUploadSizeBytes then
        let reason :=
          "File too large: " ++ env.fmtMB actual_size ++ "MB (max 100MB)"
        ([UpEvent.markSkipped item.content_hash reason],
         (if faults.markSkippedRpcOk then UploadStatus.skipped else status), none)
      else
        let content_type := (env.guessMime item.full_path).getD "application/octet-stream"
        match lf.bytes with
        | none => ([], status, some env.readErrMsg)
        | some file_data =>
          match faults.uploadErr with
          | some msg => ([], status, some msg)
          | none =>
            if faults.markCompleteOk then
              ([UpEvent.storagePut item.content_hash file_data content_type true,
                UpEvent.markComplete item.content_hash item.content_hash content_type],
               UploadStatus.uploaded, none)
            else
              ([UpEvent.storagePut item.content_hash file_data content_type true],
               status, some env.completeErrMsg)

/-- `Uploader.process_upload`: the `try:` body wrapped in the
`except Exception` handler, which records `str(e)[:500]` via `_mark_failed`.
The result is `Except`-typed so that an exception escaping the call would be
a `.error`; every branch in fact returns `.ok`. -/
def process_upload (env : UpEnv) (faults : UpFaults) (item : UploadItem)
    (lf : LocalFile) (status : UploadStatus) :
    Except String (List UpEvent × UploadStatus) :=
  match uploaderBody env faults item lf status with
  | (trace, status', none) => Except.ok (trace, status')
  | (trace, status', some e) =>
    Except.ok
      (trace ++ [UpEvent.markFailed item.content_hash (e.take 500)],
       if faults.markFailedRpcOk then rpcFailedStatus else status')

/-! ## §5  Concrete fixtures used in witnesses and counterexamples -/

/-- A concrete environment: every byte sequence hashes to `"h"`, every path
gets MIME `text/plain`. -/
def envX : PyEnv := ⟨fun _ => "h", fun _ => some "text/plain"⟩

/-- All remote calls succeed. -/
def faultsOk : ClientFaults := ⟨true, true, true, true⟩

/-- The DB upsert raises; everything else succeeds. -/
def faultsNoUpsert : ClientFaults := ⟨true, true, false, true⟩

/-- The DB upsert raises and the storage removal also raises. -/
def faultsNoUpsertNoRemove : ClientFaults := ⟨true, true, false, false⟩

/-- The file `/base/a.txt` under the source base `/base`. -/
def fpX : PyPath := ⟨["base", "a.txt"]⟩

/-- The source base `/base`. -/
def baseX : PyPath := ⟨["base"]⟩

/-- A small regular file. -/
def fiX : FileInfo := ⟨some [7], true, 7, 420, 0, 0, false, 1, 2, false⟩

/-- A 2 GiB symlink whose resolution escapes the source base. -/
def fiSymlinkEscape : FileInfo :=
  ⟨some [7], true, 2147483648, 420, 0, 0, true, 1, 2, true⟩

/-- A dangling symlink: open and stat both raise. -/
def fiDangling : FileInfo := ⟨none, false, 0, 0, 0, 0, true, 0, 0, false⟩

/-- Fallback metadata value (never reached on the fixtures). -/
def metaFallback : Metadata :=
  ⟨"", "", 0, 0, ⟨0, 0, 0, 0, false⟩, ⟨none, none, "", "", ""⟩⟩

/-- The metadata the code extracts for `fpX`. -/
def metaX : Metadata := (extract_file_metadata envX fpX baseX fiX).getD metaFallback

/-- A soft-deleted row for `/base/a.txt` whose content hash still matches. -/
def rowX : FileRow := ⟨1, some "h", some "old", 3, some 5, 3, metaX⟩

/-- A database state holding only the soft-deleted `rowX`, with the snapshot
maps `fetch_existing_files` would build from it. -/
def stX : SyncState :=
  ⟨[rowX], [], [("h", ⟨1, "a.txt", "base"⟩)], [(("base", "a.txt"), ⟨1, some "h"⟩)]⟩

/-- An empty remote state. -/
def stEmpty : SyncState := ⟨[], [], [], []⟩

/-- `metaX` but registered under the nested source base `/base/sub`. -/
def metaSub : Metadata :=
  { metaX with auto_extracted_metadata :=
      { metaX.auto_extracted_metadata with
          source_base := "/base/sub", original_path := "/base/sub/f.txt" } }

/-- A live row registered under `/base/sub`, last seen before the sweep. -/
def rowSweep : FileRow := ⟨1, some "h", none, 3, none, 3, metaSub⟩

/-- A concrete uploader environment. -/
def upEnvX : UpEnv :=
  ⟨fun _ => some "text/plain", fun n => toString (n / 1048576),
   "stat raised", "read raised", "mark complete raised"⟩

/-- All uploader remote calls succeed. -/
def upFaultsOk : UpFaults := ⟨none, true, true, true⟩

/-- Storage PUT raises `"boom"`, and both failure-recording RPCs raise. -/
def upFaultsAllBad : UpFaults := ⟨some "boom", true, false, false⟩

/-- A dequeued item. -/
def itemX : UploadItem := ⟨"cafe", "/base/a.txt", 7⟩

/-! ## Lemmas about the path sanitizer -/

theorem mem_replaceChar {c key : Char} {val s : List Char}
    (h : c ∈ replaceChar key val s) : c ∈ val ∨ c ∈ s := by
  induction s with
  | nil => simp [replaceChar] at h
  | cons d r ih =>
    simp only [replaceChar, List.mem_append] at h
    rcases h with h | h
    · split at h
      · exact Or.inl h
      · simp at h
        exact Or.inr (by simp [h])
    · rcases ih h with h' | h'
      · exact Or.inl h'
      · exact Or.inr (List.mem_cons_of_mem _ h')

theorem replaceChar_key_not_mem {key : Char} {val s : List Char}
    (hv : key ∉ val) : key ∉ replaceChar key val s := by
  induction s with
  | nil => simp [replaceChar]
  | cons d r ih =>
    simp only [replaceChar, List.mem_append]
    rintro (h | h)
    · split at h
      · exact hv h
      · rename_i hne
        simp at h
        exact hne h.symm
    · exact ih h

theorem replaceChar_of_not_mem {key : Char} {val s : List Char}
    (h : key ∉ s) : replaceChar key val s = s := by
  induction s with
  | nil => rfl
  | cons d r ih =>
    simp only [List.mem_cons, not_or] at h
    simp [replaceChar, Ne.symm h.1, ih h.2]

/-- The sequential replacement fold, over an arbitrary table. -/
theorem mem_foldl_replace {c : Char} :
    ∀ (L : List (Char × List Char)) (s : List Char),
      c ∈ L.foldl (fun acc kv => replaceChar kv.1 kv.2 acc) s →
      (∃ kv ∈ L, c ∈ kv.2) ∨ c ∈ s := by
  intro L
  induction L with
  | nil => intro s h; exact Or.inr h
  | cons kv L' ih =>
    intro s h
    simp only [List.foldl_cons] at h
    rcases ih _ h with ⟨kv', hkv', hc⟩ | h'
    · exact Or.inl ⟨kv', List.mem_cons_of_mem _ hkv', hc⟩
    · rcases mem_replaceChar h' with h'' | h''
      · exact Or.inl ⟨kv, List.mem_cons_self _ _, h''⟩
      · exact Or.inr h''

theorem not_mem_foldl_replace {c : Char} {L : List (Char × List Char)}
    {s : List Char} (hs : c ∉ s) (hL : ∀ kv ∈ L, c ∉ kv.2) :
    c ∉ L.foldl (fun acc kv => replaceChar kv.1 kv.2 acc) s := by
  intro h
  rcases mem_foldl_replace L s h with ⟨kv, hkv, hc⟩ | h'
  · exact hL kv hkv hc
  · exact hs h'

theorem keys_not_mem_foldl_replace :
    ∀ (L : List (Char × List Char)),
      (∀ kv ∈ L, ∀ kv' ∈ L, kv'.1 ∉ kv.2) →
      ∀ (s : List Char), ∀ kv ∈ L,
        kv.1 ∉ L.foldl (fun acc kv => replaceChar kv.1 kv.2 acc) s := by
  intro L
  induction L with
  | nil => intro _ s kv h; simp at h
  | cons a L' ih =>
    intro hv s kv hkv
    simp only [List.foldl_cons]
    rcases List.mem_cons.mp hkv with rfl | hkv'
    · refine not_mem_foldl_replace ?_ ?_
      · exact replaceChar_key_not_mem
          (hv kv (List.mem_cons_self _ _) kv (List.mem_cons_self _ _))
      · intro kv' hkv'
        exact hv kv' (List.mem_cons_of_mem _ hkv') kv (List.mem_cons_self _ _)
    · exact ih
        (fun x hx y hy =>
          hv x (List.mem_cons_of_mem _ hx) y (List.mem_cons_of_mem _ hy))
        _ kv hkv'

theorem foldl_replace_of_key_free :
    ∀ (L : List (Char × List Char)) (s : List Char),
      (∀ kv ∈ L, kv.1 ∉ s) →
      L.foldl (fun acc kv => replaceChar kv.1 kv.2 acc) s = s := by
  intro L
  induction L with
  | nil => intro s _; rfl
  | cons a L' ih =>
    intro s hfree
    simp only [List.foldl_cons]
    rw [replaceChar_of_not_mem (hfree a (List.mem_cons_self _ _))]
    exact ih s (fun kv hkv => hfree kv (List.mem_cons_of_mem _ hkv))

theorem mem_applyNfkd {c : Char} {s : List Char} (h : c ∈ applyNfkd s) :
    ∃ d ∈ s, c ∈ nfkdChar d := by
  simp only [applyNfkd, List.mem_flatten, List.mem_map] at h
  obtain ⟨l, ⟨d, hd, rfl⟩, hc⟩ := h
  exact ⟨d, hd, hc⟩

theorem applyNfkd_ascii_id {s : List Char} (h : ∀ c ∈ s, c.toNat < 128) :
    applyNfkd s = s := by
  induction s with
  | nil => rfl
  | cons d r ih =>
    have hd : nfkdChar d = [d] := by
      unfold nfkdChar
      rw [if_pos (h d (List.mem_cons_self _ _))]
    simp only [applyNfkd, List.map_cons, List.flatten_cons, hd]
    simp only [applyNfkd] at ih
    rw [ih (fun c hc => h c (List.mem_cons_of_mem _ hc))]
    rfl

theorem combiningChar_ascii {c : Char} (h : c.toNat < 128) :
    combiningChar c = false := by
  by_contra hc
  simp only [combiningChar, Bool.not_eq_false, decide_eq_true_eq] at hc
  rcases hc with rfl | rfl | rfl | rfl <;> simp_all

theorem mem_stripCombining {c : Char} {s : List Char}
    (h : c ∈ stripCombining s) : c ∈ s :=
  List.mem_of_mem_filter h

theorem stripCombining_ascii_id {s : List Char}
    (h : ∀ c ∈ s, c.toNat < 128) : stripCombining s = s := by
  unfold stripCombining
  rw [List.filter_eq_self]
  intro c hc
  simp [combiningChar_ascii (h c hc)]

theorem mem_asciiClean {c : Char} {s : List Char} (h : c ∈ asciiClean s) :
    c ∈ s ∨ c = '_' := by
  simp only [asciiClean, List.mem_map] at h
  obtain ⟨d, hd, hc⟩ := h
  split at hc
  · exact Or.inl (hc ▸ hd)
  · exact Or.inr hc.symm

theorem asciiClean_ascii {c : Char} {s : List Char} (h : c ∈ asciiClean s) :
    c.toNat < 128 := by
  simp only [asciiClean, List.mem_map] at h
  obtain ⟨d, _, hc⟩ := h
  split at hc
  · subst hc; assumption
  · subst hc; decide

theorem asciiClean_ascii_id {s : List Char} (h : ∀ c ∈ s, c.toNat < 128) :
    asciiClean s = s := by
  induction s with
  | nil => rfl
  | cons d r ih =>
    simp only [asciiClean, List.map_cons]
    rw [if_pos (h d (List.mem_cons_self _ _))]
    simp only [asciiClean] at ih
    rw [ih (fun c hc => h c (List.mem_cons_of_mem _ hc))]

theorem mem_collapseAux {c : Char} :
    ∀ (s : List Char) (prev : Option Char), c ∈ collapseAux prev s → c ∈ s := by
  intro s
  induction s with
  | nil => intro prev h; simp [collapseAux] at h
  | cons d r ih =>
    intro prev h
    simp only [collapseAux] at h
    split at h
    · exact List.mem_cons_of_mem _ (ih _ h)
    · rcases List.mem_cons.mp h with rfl | h'
      · exact List.mem_cons_self _ _
      · exact List.mem_cons_of_mem _ (ih _ h')

theorem collapseAux_after_underscore_head :
    ∀ (s t : List Char) (c : Char),
      collapseAux (some '_') s = c :: t → c ≠ '_' := by
  intro s
  induction s with
  | nil => intro t c h; simp [collapseAux] at h
  | cons d r ih =>
    intro t c h
    simp only [collapseAux] at h
    split at h
    · rename_i hcond
      obtain ⟨rfl, -⟩ := hcond
      exact ih _ _ h
    · rename_i hcond
      obtain ⟨rfl, ht⟩ := (List.cons.injEq ..).mp h
      intro hc
      exact hcond ⟨hc, by simp⟩

theorem collapseAux_noDoubleU :
    ∀ (s : List Char) (prev : Option Char),
      noDoubleU (collapseAux prev s) = true := by
  intro s
  induction s with
  | nil => intro prev; rfl
  | cons d r ih =>
    intro prev
    simp only [collapseAux]
    split
    · exact ih _
    · rcases hr : collapseAux (some d) r with _ | ⟨c2, t⟩
      · rfl
      · have h2 := ih (some d)
        rw [hr] at h2
        simp only [noDoubleU, Bool.and_eq_true, Bool.not_eq_true']
        refine ⟨?_, h2⟩
        by_cases hd : d = '_'
        · subst hd
          have := collapseAux_after_underscore_head r t c2 hr
          simp [this]
        · simp [hd]

theorem collapseAux_of_noDoubleU :
    ∀ (s : List Char) (prev : Option Char),
      noDoubleU s = true →
      (prev = some '_' → ∀ c t, s = c :: t → c ≠ '_') →
      collapseAux prev s = s := by
  intro s
  induction s with
  | nil => intro prev _ _; rfl
  | cons d r ih =>
    intro prev hdu hhead
    simp only [collapseAux]
    rw [if_neg]
    · congr 1
      refine ih (some d) ?_ ?_
      · cases r with
        | nil => rfl
        | cons c2 t =>
          simp only [noDoubleU, Bool.and_eq_true] at hdu
          exact hdu.2
      · intro hd c t hrt hc
        subst hc
        rw [hrt] at hdu
        simp only [Option.some.injEq] at hd
        subst hd
        simp [noDoubleU] at hdu
    · rintro ⟨rfl, hd⟩
      exact hhead hd '_' r rfl rfl

theorem collapse_idem {s : List Char} :
    collapseUnderscores (collapseUnderscores s) = collapseUnderscores s := by
  unfold collapseUnderscores
  exact collapseAux_of_noDoubleU _ none (collapseAux_noDoubleU s none)
    (by intro h; cases h)

theorem sanitize_filename_ascii {c : Char} {s : List Char}
    (h : c ∈ sanitize_filename s) : c.toNat < 128 := by
  unfold sanitize_filename at h
  exact asciiClean_ascii (mem_collapseAux _ _ h)

theorem applyReplacements_ascii {s : List Char}
    (h : ∀ c ∈ s, c.toNat < 128) :
    ∀ c ∈ applyReplacements s, c.toNat < 128 := by
  have hvals : ∀ kv ∈ charReplacements, ∀ c ∈ kv.2, c.toNat < 128 := by decide
  intro c hc
  rcases mem_foldl_replace charReplacements s hc with ⟨kv, hkv, hcv⟩ | hcs
  · exact hvals kv hkv c hcv
  · exact h c hcs

theorem applyReplacements_key_free (s : List Char) :
    ∀ kv ∈ charReplacements, kv.1 ∉ applyReplacements s :=
  fun kv hkv => keys_not_mem_foldl_replace charReplacements (by decide) s kv hkv

theorem sanitize_filename_noDoubleU {s : List Char} :
    noDoubleU (sanitize_filename s) = true :=
  collapseAux_noDoubleU _ none

theorem applyReplacements_of_key_free {s : List Char}
    (h : ∀ kv ∈ charReplacements, kv.1 ∉ s) : applyReplacements s = s :=
  foldl_replace_of_key_free charReplacements s h

theorem sanitize_filename_of_ascii {s : List Char}
    (h : ∀ c ∈ s, c.toNat < 128) :
    sanitize_filename s = collapseUnderscores (applyReplacements s) := by
  have hA := applyReplacements_ascii h
  unfold sanitize_filename
  rw [applyNfkd_ascii_id hA, stripCombining_ascii_id hA, asciiClean_ascii_id hA]

theorem sanitize_filename_key_free_of_ascii {s : List Char}
    (h : ∀ c ∈ s, c.toNat < 128) :
    ∀ kv ∈ charReplacements, kv.1 ∉ sanitize_filename s := by
  intro kv hkv hmem
  rw [sanitize_filename_of_ascii h] at hmem
  unfold collapseUnderscores at hmem
  have h2 := mem_collapseAux (applyReplacements s) none hmem
  exact applyReplacements_key_free s kv hkv h2

theorem sanitize_filename_no_slash_of_ascii {s : List Char}
    (h : ∀ c ∈ s, c.toNat < 128) (hs : '/' ∉ s) :
    '/' ∉ sanitize_filename s := by
  intro hmem
  rw [sanitize_filename_of_ascii h] at hmem
  unfold collapseUnderscores at hmem
  have h2 := mem_collapseAux (applyReplacements s) none hmem
  rcases mem_foldl_replace charReplacements s h2 with ⟨kv, hkv, hcv⟩ | hcs
  · exact absurd hcv ((by decide : ∀ kv ∈ charReplacements, '/' ∉ kv.2) kv hkv)
  · exact hs hcs

theorem sanitize_filename_idem_of_ascii {s : List Char}
    (h : ∀ c ∈ s, c.toNat < 128) :
    sanitize_filename (sanitize_filename s) = sanitize_filename s := by
  have hascii : ∀ c ∈ sanitize_filename s, c.toNat < 128 :=
    fun _ hc => sanitize_filename_ascii hc
  rw [sanitize_filename_of_ascii hascii,
    applyReplacements_of_key_free (sanitize_filename_key_free_of_ascii h)]
  exact collapseAux_of_noDoubleU _ none sanitize_filename_noDoubleU
    (by intro hx; cases hx)

/-! Lemmas about Python split / join. -/

theorem pySplitAux_ne_nil (sep : Char) :
    ∀ (s acc : List Char), pySplitAux sep acc s ≠ [] := by
  intro s
  induction s with
  | nil => intro acc; simp [pySplitAux]
  | cons c r ih =>
    intro acc
    simp only [pySplitAux]
    split
    · simp
    · exact ih _

theorem pySplit_ne_nil (sep : Char) (s : List Char) : pySplit sep s ≠ [] :=
  pySplitAux_ne_nil sep s []

theorem pySplitAux_sep_free (sep : Char) :
    ∀ (s acc : List Char), sep ∉ acc →
      ∀ seg ∈ pySplitAux sep acc s, sep ∉ seg := by
  intro s
  induction s with
  | nil =>
    intro acc hacc seg hseg
    simp only [pySplitAux, List.mem_singleton] at hseg
    subst hseg
    simpa using hacc
  | cons c r ih =>
    intro acc hacc seg hseg
    simp only [pySplitAux] at hseg
    split at hseg
    · rcases List.mem_cons.mp hseg with rfl | h'
      · simpa using hacc
      · exact ih [] (by simp) seg h'
    · rename_i hc
      refine ih (c :: acc) ?_ seg hseg
      simp only [List.mem_cons, not_or]
      exact ⟨fun h => hc h.symm, hacc⟩

theorem pySplit_sep_free (sep : Char) (s : List Char) :
    ∀ seg ∈ pySplit sep s, sep ∉ seg :=
  pySplitAux_sep_free sep s [] (by simp)

theorem pySplitAux_no_sep (sep : Char) :
    ∀ (x acc : List Char), sep ∉ x →
      pySplitAux sep acc x = [acc.reverse ++ x] := by
  intro x
  induction x with
  | nil => intro acc _; simp [pySplitAux]
  | cons c r ih =>
    intro acc hx
    simp only [List.mem_cons, not_or] at hx
    simp only [pySplitAux]
    rw [if_neg (fun h => hx.1 h.symm)]
    rw [ih (c :: acc) hx.2]
    simp

theorem pySplitAux_seg (sep : Char) :
    ∀ (x acc t : List Char), sep ∉ x →
      pySplitAux sep acc (x ++ sep :: t) =
        (acc.reverse ++ x) :: pySplitAux sep [] t := by
  intro x
  induction x with
  | nil =>
    intro acc t _
    simp [pySplitAux]
  | cons c r ih =>
    intro acc t hx
    simp only [List.mem_cons, not_or] at hx
    simp only [List.cons_append, pySplitAux, List.append_eq]
    rw [if_neg (fun h => hx.1 h.symm)]
    rw [ih (c :: acc) t hx.2]
    simp

theorem pySplit_pyJoin (sep : Char) :
    ∀ (parts : List (List Char)), parts ≠ [] →
      (∀ x ∈ parts, sep ∉ x) →
      pySplit sep (pyJoin sep parts) = parts := by
  intro parts
  induction parts with
  | nil => intro h _; exact absurd rfl h
  | cons x rest ih =>
    intro _ hfree
    cases rest with
    | nil =>
      simp only [pyJoin, pySplit]
      rw [pySplitAux_no_sep sep x [] (hfree x (List.mem_cons_self _ _))]
      simp
    | cons y rest' =>
      simp only [pyJoin, pySplit]
      rw [pySplitAux_seg sep x [] _ (hfree x (List.mem_cons_self _ _))]
      simp only [List.reverse_nil, List.nil_append, List.cons.injEq, true_and]
      exact ih (by simp) (fun z hz => hfree z (List.mem_cons_of_mem _ hz))

theorem mem_pyJoin {c : Char} {sep : Char} :
    ∀ (parts : List (List Char)), c ∈ pyJoin sep parts →
      c = sep ∨ ∃ x ∈ parts, c ∈ x := by
  intro parts
  induction parts with
  | nil => intro h; simp [pyJoin] at h
  | cons x rest ih =>
    intro h
    cases rest with
    | nil =>
      exact Or.inr ⟨x, List.mem_cons_self _ _, by simpa [pyJoin] using h⟩
    | cons y rest' =>
      simp only [pyJoin, List.mem_append, List.mem_cons] at h
      rcases h with h | h | h
      · exact Or.inr ⟨x, List.mem_cons_self _ _, h⟩
      · exact Or.inl h
      · rcases ih h with h' | ⟨z, hz, hc⟩
        · exact Or.inl h'
        · exact Or.inr ⟨z, List.mem_cons_of_mem _ hz, hc⟩

theorem pySplitAux_chars (sep : Char) :
    ∀ (s acc : List Char), ∀ seg ∈ pySplitAux sep acc s, ∀ c ∈ seg,
      c ∈ acc ∨ c ∈ s := by
  intro s
  induction s with
  | nil =>
    intro acc seg hseg c hc
    simp only [pySplitAux, List.mem_singleton] at hseg
    subst hseg
    exact Or.inl (List.mem_reverse.mp hc)
  | cons d r ih =>
    intro acc seg hseg c hc
    simp only [pySplitAux] at hseg
    split at hseg
    · rcases List.mem_cons.mp hseg with rfl | h2
      · exact Or.inl (List.mem_reverse.mp hc)
      · rcases ih [] seg h2 c hc with h3 | h3
        · exact absurd h3 (List.not_mem_nil c)
        · exact Or.inr (List.mem_cons_of_mem _ h3)
    · rcases ih (d :: acc) seg hseg c hc with h3 | h3
      · rcases List.mem_cons.mp h3 with rfl | h4
        · exact Or.inr (List.mem_cons_self _ _)
        · exact Or.inl h4
      · exact Or.inr (List.mem_cons_of_mem _ h3)

theorem pySplit_chars (sep : Char) (s : List Char) :
    ∀ seg ∈ pySplit sep s, ∀ c ∈ seg, c ∈ s := by
  intro seg hseg c hc
  rcases pySplitAux_chars sep s [] seg hseg c hc with h | h
  · exact absurd h (List.not_mem_nil c)
  · exact h

theorem map_sf_idem_of_ascii :
    ∀ (L : List (List Char)), (∀ x ∈ L, ∀ c ∈ x, c.toNat < 128) →
      (L.map sanitize_filename).map sanitize_filename = L.map sanitize_filename := by
  intro L
  induction L with
  | nil => intro _; rfl
  | cons x r ih =>
    intro h
    simp only [List.map_cons]
    rw [sanitize_filename_idem_of_ascii (h x (List.mem_cons_self _ _)),
      ih (fun y hy => h y (List.mem_cons_of_mem _ hy))]

theorem sanitize_path_ascii {c : Char} {s : List Char}
    (h : c ∈ sanitize_path s) : c.toNat < 128 := by
  unfold sanitize_path at h
  rcases mem_pyJoin _ h with rfl | ⟨x, hx, hc⟩
  · decide
  · simp only [List.mem_map] at hx
    obtain ⟨seg, _, rfl⟩ := hx
    exact sanitize_filename_ascii hc

theorem sanitize_path_split_of_ascii {s : List Char}
    (h : ∀ c ∈ s, c.toNat < 128) :
    pySplit '/' (sanitize_path s) = (pySplit '/' s).map sanitize_filename := by
  unfold sanitize_path
  exact pySplit_pyJoin '/' ((pySplit '/' s).map sanitize_filename)
    (by simpa using pySplit_ne_nil '/' s)
    (by
      intro x hx
      simp only [List.mem_map] at hx
      obtain ⟨seg, hseg, rfl⟩ := hx
      exact sanitize_filename_no_slash_of_ascii
        (fun c hc => h c (pySplit_chars '/' s seg hseg c hc))
        (pySplit_sep_free '/' s seg hseg))

theorem sanitize_path_idem_of_ascii {s : List Char}
    (h : ∀ c ∈ s, c.toNat < 128) :
    sanitize_path (sanitize_path s) = sanitize_path s := by
  rw [show sanitize_path (sanitize_path s)
      = pyJoin '/' ((pySplit '/' (sanitize_path s)).map sanitize_filename) from rfl]
  rw [sanitize_path_split_of_ascii h]
  rw [map_sf_idem_of_ascii (pySplit '/' s)
    (fun seg hseg c hc => h c (pySplit_chars '/' s seg hseg c hc))]
  rfl

/-! ## Claim C6 -/

/-- C6, counterexample: the claim fails on both counts.  On the all-ASCII
input `"a b"` the sanitizer is the identity, so its output contains a space —
a character outside the asserted alphabet.  And `sanitize_path` is not
idempotent: NFKD decomposes the fullwidth number sign `＃` to `#`, a
`CHAR_REPLACEMENTS` key, so `sanitize_path "＃" = "#"` while a second
application maps it to `"_"`. -/
theorem claim6_counterexample :
    (sanitize_path ['a', ' ', 'b'] = ['a', ' ', 'b'] ∧
      ' ' ∈ sanitize_path ['a', ' ', 'b'] ∧ specAllowedChar ' ' = false) ∧
      (sanitize_path ['＃'] = ['#'] ∧
        sanitize_path (sanitize_path ['＃']) = ['_'] ∧
        (['_'] : List Char) ≠ ['#']) := by
  decide

/-- C6, amended: `sanitize_path` is deterministic (a pure function of its
input) and its output consists of ASCII characters only; restricted to ASCII
inputs it is idempotent and applies `sanitize_filename` per `/`-separated
segment with the separators preserved.  It is NOT idempotent on arbitrary
Unicode input — NFKD compatibility decompositions can produce replacement
keys (see the counterexample) — nor is its output confined to
`A-Za-z0-9._()-`, `/` and `_`. -/
theorem claim6_sanitize_path_ascii (s : List Char) :
    ((∀ c ∈ s, c.toNat < 128) →
      sanitize_path (sanitize_path s) = sanitize_path s ∧
        pySplit '/' (sanitize_path s) = (pySplit '/' s).map sanitize_filename) ∧
      ∀ c ∈ sanitize_path s, c.toNat < 128 :=
  ⟨fun h => ⟨sanitize_path_idem_of_ascii h, sanitize_path_split_of_ascii h⟩,
    fun _ hc => sanitize_path_ascii hc⟩

/-- Witness for C6 at the concrete ASCII input `"a b"`, discharging the
ASCII hypothesis and the output-membership hypothesis at `a`. -/
theorem claim6_witness :
    (sanitize_path (sanitize_path ['a', ' ', 'b']) = sanitize_path ['a', ' ', 'b'] ∧
      pySplit '/' (sanitize_path ['a', ' ', 'b'])
        = (pySplit '/' ['a', ' ', 'b']).map sanitize_filename) ∧
      'a' ∈ sanitize_path ['a', ' ', 'b'] ∧ 'a'.toNat < 128 :=
  ⟨(claim6_sanitize_path_ascii ['a', ' ', 'b']).1 (by decide),
    by decide,
    (claim6_sanitize_path_ascii ['a', ' ', 'b']).2 'a' (by decide)⟩

/-! ## Lemmas about the event queue -/

theorem self_mem_queueAdd (q : EventMap) (e : PendingEvent) :
    (e.path, e) ∈ queueAdd q e := by
  unfold queueAdd
  split
  · rename_i hfind
    rw [List.find?_isSome] at hfind
    obtain ⟨x, hx, hpx⟩ := hfind
    rw [List.mem_map]
    refine ⟨x, hx, ?_⟩
    rw [if_pos hpx]
  · simp

theorem mem_queueAdd {q : EventMap} {e : PendingEvent} {p : String × PendingEvent}
    (h : p ∈ queueAdd q e) : p = (e.path, e) ∨ (p ∈ q ∧ p.1 ≠ e.path) := by
  unfold queueAdd at h
  split at h
  · rw [List.mem_map] at h
    obtain ⟨x, hx, hpx⟩ := h
    split at hpx
    · exact Or.inl hpx.symm
    · rename_i hne
      subst hpx
      exact Or.inr ⟨hx, by simpa using hne⟩
  · rw [List.mem_append] at h
    rcases h with h | h
    · rename_i hfind
      refine Or.inr ⟨h, fun hk => ?_⟩
      rw [List.find?_isSome] at hfind
      exact hfind ⟨p, h, by simpa using hk⟩
    · simp only [List.mem_singleton] at h
      exact Or.inl h

theorem queueAdd_wf {q : EventMap} {e : PendingEvent}
    (hwf : ∀ p ∈ q, p.1 = p.2.path) :
    ∀ p ∈ queueAdd q e, p.1 = p.2.path := by
  intro p hp
  rcases mem_queueAdd hp with rfl | ⟨hq, _⟩
  · rfl
  · exact hwf p hq

theorem queueAdd_nodup {q : EventMap} {e : PendingEvent}
    (hnd : (q.map Prod.fst).Nodup) :
    ((queueAdd q e).map Prod.fst).Nodup := by
  unfold queueAdd
  split
  · have : (q.map (fun p => if p.1 == e.path then (e.path, e) else p)).map Prod.fst
        = q.map Prod.fst := by
      rw [List.map_map]
      refine List.map_congr_left ?_
      intro p _
      simp only [Function.comp_apply]
      split
      · rename_i hbe
        simpa using (beq_iff_eq.mp (by simpa using hbe)).symm
      · rfl
    rw [this]
    exact hnd
  · rename_i hfind
    rw [List.map_append]
    simp only [List.map_cons, List.map_nil]
    rw [List.nodup_append]
    refine ⟨hnd, List.nodup_singleton _, ?_⟩
    intro k hk
    simp only [List.mem_singleton]
    intro hke
    subst hke
    rw [List.mem_map] at hk
    obtain ⟨p, hp, hpk⟩ := hk
    have hno : ¬ ∃ x ∈ q, x.1 == e.path := by
      rw [show (∃ x ∈ q, x.1 == e.path) = ∃ x ∈ q, (fun p => p.1 == e.path) x = true from rfl]
      rw [← List.find?_isSome]
      simp [hfind]
    exact hno ⟨p, hp, by simpa using hpk⟩

theorem key_unique {q : EventMap} (hnd : (q.map Prod.fst).Nodup)
    {k : String} {v v' : PendingEvent}
    (h1 : (k, v) ∈ q) (h2 : (k, v') ∈ q) : v = v' := by
  induction q with
  | nil => simp at h1
  | cons hd tl ih =>
    simp only [List.map_cons, List.nodup_cons] at hnd
    rcases List.mem_cons.mp h1 with rfl | h1'
    · rcases List.mem_cons.mp h2 with h2h | h2'
      · exact ((Prod.mk.injEq ..).mp h2h.symm).2
      · exact absurd (List.mem_map_of_mem Prod.fst h2') (by simpa using hnd.1)
    · rcases List.mem_cons.mp h2 with rfl | h2'
      · exact absurd (List.mem_map_of_mem Prod.fst h1') (by simpa using hnd.1)
      · exact ih hnd.2 h1' h2'

theorem count_values_of_nodup :
    ∀ (q : EventMap), (∀ p ∈ q, p.1 = p.2.path) → (q.map Prod.fst).Nodup →
      ∀ v : PendingEvent,
        ((q.map (fun p => p.2)).count v) = if (v.path, v) ∈ q then 1 else 0 := by
  intro q
  induction q with
  | nil => intro _ _ v; simp
  | cons hd tl ih =>
    intro hwf hnd v
    obtain ⟨k, w⟩ := hd
    have hk : k = w.path := hwf (k, w) (List.mem_cons_self _ _)
    subst hk
    simp only [List.map_cons, List.nodup_cons] at hnd
    simp only [List.map_cons, List.count_cons]
    rw [ih (fun p hp => hwf p (List.mem_cons_of_mem _ hp)) hnd.2]
    by_cases hvw : w = v
    · subst hvw
      have hnotl : (w.path, w) ∉ tl := by
        intro hmem
        exact hnd.1 (by simpa using List.mem_map_of_mem Prod.fst hmem)
      rw [if_neg hnotl]
      simp
    · have hne : ((w.path, w) : String × PendingEvent) ≠ (v.path, v) := by
        intro hc
        exact hvw ((Prod.mk.injEq ..).mp hc).2
      simp only [List.mem_cons]
      rw [if_congr (iff_of_eq (eq_iff_iff.mpr ⟨fun h => ?_, Or.inr⟩)) rfl rfl]
      · simp [hvw]
      · rcases h with h | h
        · exact absurd h.symm hne
        · exact h

/-! ## Claim C5 -/

/-- C5: adding `e2` for the same path after `e1` replaces `e1`; once past the
debounce window, `get_ready` yields `e2` exactly once and never `e1`, and a
later `get_ready` on the remaining queue never yields `e2` again.
The queue `q` is any well-formed event dict (keys are the events' paths, no
duplicate keys). -/
theorem claim5_event_queue (q : EventMap) (e1 e2 : PendingEvent)
    (debounce now : Int)
    (hwf : ∀ p ∈ q, p.1 = p.2.path)
    (hnd : (q.map Prod.fst).Nodup)
    (hpath : e1.path = e2.path)
    (hready : e2.timestamp < now - debounce) :
    ((get_ready debounce now (queueAdd (queueAdd q e1) e2)).1.count e2 = 1) ∧
      (e1 ≠ e2 →
        (get_ready debounce now (queueAdd (queueAdd q e1) e2)).1.count e1 = 0) ∧
      (∀ now2 : Int,
        ((get_ready debounce now2
          (get_ready debounce now (queueAdd (queueAdd q e1) e2)).2).1.count e2 = 0)) := by
  have hwf2 : ∀ p ∈ queueAdd (queueAdd q e1) e2, p.1 = p.2.path :=
    queueAdd_wf (queueAdd_wf hwf)
  have hnd2 : ((queueAdd (queueAdd q e1) e2).map Prod.fst).Nodup :=
    queueAdd_nodup (queueAdd_nodup hnd)
  have hmem2 : (e2.path, e2) ∈ queueAdd (queueAdd q e1) e2 :=
    self_mem_queueAdd _ _
  set q2 := queueAdd (queueAdd q e1) e2 with hq2
  have hsub : ∀ pred : String × PendingEvent → Bool,
      ((q2.filter pred).map Prod.fst).Nodup := by
    intro pred
    exact List.Nodup.sublist (List.Sublist.map Prod.fst (List.filter_sublist q2)) hnd2
  have hwfsub : ∀ (pred : String × PendingEvent → Bool),
      ∀ p ∈ q2.filter pred, p.1 = p.2.path :=
    fun pred p hp => hwf2 p (List.mem_of_mem_filter hp)
  refine ⟨?_, ?_, ?_⟩
  · rw [show (get_ready debounce now q2).1
        = (q2.filter (fun p => p.2.timestamp < now - debounce)).map (fun p => p.2) from rfl]
    rw [count_values_of_nodup _ (hwfsub _) (hsub _)]
    rw [if_pos (List.mem_filter.mpr ⟨hmem2, by simpa using hready⟩)]
  · intro hne12
    rw [show (get_ready debounce now q2).1
        = (q2.filter (fun p => p.2.timestamp < now - debounce)).map (fun p => p.2) from rfl]
    rw [count_values_of_nodup _ (hwfsub _) (hsub _)]
    rw [if_neg]
    intro hmem1
    have h1 : (e1.path, e1) ∈ q2 := List.mem_of_mem_filter hmem1
    rw [hpath] at h1
    exact hne12 (key_unique hnd2 h1 hmem2)
  · intro now2
    rw [show (get_ready debounce now2 (get_ready debounce now q2).2).1
        = (((q2.filter (fun p => ¬ p.2.timestamp < now - debounce)).filter
            (fun p => p.2.timestamp < now2 - debounce)).map (fun p => p.2)) from rfl]
    have hnd3 : (((q2.filter (fun p => ¬ p.2.timestamp < now - debounce)).filter
        (fun p => p.2.timestamp < now2 - debounce)).map Prod.fst).Nodup := by
      refine List.Nodup.sublist (List.Sublist.map Prod.fst ?_) hnd2
      exact (List.filter_sublist _).trans (List.filter_sublist q2)
    have hwf3 : ∀ p ∈ ((q2.filter (fun p => ¬ p.2.timestamp < now - debounce)).filter
        (fun p => p.2.timestamp < now2 - debounce)), p.1 = p.2.path :=
      fun p hp => hwf2 p (List.mem_of_mem_filter (List.mem_of_mem_filter hp))
    rw [count_values_of_nodup _ hwf3 hnd3]
    rw [if_neg]
    intro hmem
    have h1 := List.mem_of_mem_filter hmem
    have h2 := (List.mem_filter.mp h1).2
    simp only [decide_eq_true_eq] at h2
    exact h2 (by simpa using hready)

/-- Witness for C5 at a concrete queue: empty initial queue, two events on
path `p`, debounce 3, now 10. -/
theorem claim5_witness :
    ((get_ready 3 10 (queueAdd (queueAdd []
        ⟨"p", EventType.created, 0, none⟩) ⟨"p", EventType.modified, 1, none⟩)).1.count
        ⟨"p", EventType.modified, 1, none⟩ = 1) ∧
      ((⟨"p", EventType.created, 0, none⟩ : PendingEvent) ≠ ⟨"p", EventType.modified, 1, none⟩ →
        (get_ready 3 10 (queueAdd (queueAdd []
          ⟨"p", EventType.created, 0, none⟩) ⟨"p", EventType.modified, 1, none⟩)).1.count
          ⟨"p", EventType.created, 0, none⟩ = 0) ∧
      (∀ now2 : Int,
        ((get_ready 3 now2
          (get_ready 3 10 (queueAdd (queueAdd []
            ⟨"p", EventType.created, 0, none⟩) ⟨"p", EventType.modified, 1, none⟩)).2).1.count
          ⟨"p", EventType.modified, 1, none⟩ = 0)) :=
  claim5_event_queue [] ⟨"p", EventType.created, 0, none⟩
    ⟨"p", EventType.modified, 1, none⟩ 3 10
    (by intro p hp; simp at hp) (by simp) rfl (by decide)

/-! ## Lemmas about `process_single_file` (branch characterizations) -/

theorem psf_hash_failed {env : PyEnv} {faults : ClientFaults}
    {fp base : PyPath} {fi : FileInfo} {st : SyncState} {now : Nat}
    {uuidStr : String} {newId : Nat} (hb : fi.bytes = none) :
    process_single_file env faults fp base fi st now uuidStr newId
      = ⟨fp.name, "error", "hash failed", st⟩ := by
  unfold process_single_file compute_hash_streaming
  rw [hb]
  rfl

theorem psf_meta_failed {env : PyEnv} {faults : ClientFaults}
    {fp base : PyPath} {fi : FileInfo} {st : SyncState} {now : Nat}
    {uuidStr : String} {newId : Nat} {b : List Nat}
    (hb : fi.bytes = some b) (hstat : fi.statOk = false) :
    process_single_file env faults fp base fi st now uuidStr newId
      = ⟨fp.name, "error", "metadata extraction failed", st⟩ := by
  unfold process_single_file compute_hash_streaming extract_file_metadata
  rw [hb, hstat]
  rfl

/-- The metadata value in the non-error branches. -/
def mdOf (env : PyEnv) (fp base : PyPath) (fi : FileInfo) : Metadata :=
  { filename := fp.name
    folder_path := folderPathOf fp base
    file_created_at := fi.ctime
    file_modified_at := fi.mtime
    filesystem_attributes :=
      { size_bytes := fi.size, mode_octal := fi.mode % 512,
        uid := fi.uid, gid := fi.gid, is_symlink := fi.isSymlink }
    auto_extracted_metadata :=
      { mime_type := env.guessMime (pathStr fp)
        extension := if fp.suffix ≠ "" then some (lowerStr fp.suffix) else none
        original_filename := fp.name
        original_path := pathStr fp
        source_base := pathStr base } }

theorem extract_some {env : PyEnv} {fp base : PyPath} {fi : FileInfo}
    (hstat : fi.statOk = true) :
    extract_file_metadata env fp base fi = some (mdOf env fp base fi) := by
  unfold extract_file_metadata mdOf
  rw [hstat]
  rfl

theorem psf_unchanged {env : PyEnv} {faults : ClientFaults}
    {fp base : PyPath} {fi : FileInfo} {st : SyncState} {now : Nat}
    {uuidStr : String} {newId : Nat} {b : List Nat} {ep : PathEntry}
    (hb : fi.bytes = some b) (hstat : fi.statOk = true)
    (hep : alistGet st.path_map (folderPathOf fp base, fp.name) = some ep)
    (hhash : ep.content_hash = some (env.sha256hex b))
    (hok : faults.updateLastSeenOk = true) :
    process_single_file env faults fp base fi st now uuidStr newId
      = ⟨fp.name, "unchanged", "unchanged",
          { st with files := st.files.map (fun r =>
              if r.id = ep.id then { r with last_seen_at := now } else r) }⟩ := by
  unfold process_single_file compute_hash_streaming
  rw [hb, extract_some hstat]
  simp only [Option.map_some', mdOf, hep]
  rw [if_pos hhash, if_pos hok]

theorem psf_unchanged_touch_failed {env : PyEnv} {faults : ClientFaults}
    {fp base : PyPath} {fi : FileInfo} {st : SyncState} {now : Nat}
    {uuidStr : String} {newId : Nat} {b : List Nat} {ep : PathEntry}
    (hb : fi.bytes = some b) (hstat : fi.statOk = true)
    (hep : alistGet st.path_map (folderPathOf fp base, fp.name) = some ep)
    (hhash : ep.content_hash = some (env.sha256hex b))
    (hok : faults.updateLastSeenOk = false) :
    process_single_file env faults fp base fi st now uuidStr newId
      = ⟨fp.name, "unchanged", "last_seen_at update failed", st⟩ := by
  unfold process_single_file compute_hash_streaming
  rw [hb, extract_some hstat]
  simp only [Option.map_some', mdOf, hep]
  rw [if_pos hhash, if_neg (by simp [hok])]

theorem psf_changed {env : PyEnv} {faults : ClientFaults}
    {fp base : PyPath} {fi : FileInfo} {st : SyncState} {now : Nat}
    {uuidStr : String} {newId : Nat} {b : List Nat} {ep : PathEntry}
    (hb : fi.bytes = some b) (hstat : fi.statOk = true)
    (hep : alistGet st.path_map (folderPathOf fp base, fp.name) = some ep)
    (hhash : ¬ ep.content_hash = some (env.sha256hex b)) :
    process_single_file env faults fp base fi st now uuidStr newId
      = registrarUploadBranch faults fp fi st now uuidStr newId
          (mdOf env fp base fi) (env.sha256hex b) (some ep) := by
  unfold process_single_file compute_hash_streaming
  rw [hb, extract_some hstat]
  simp only [Option.map_some', mdOf, hep]
  rw [if_neg hhash]

theorem psf_new_path {env : PyEnv} {faults : ClientFaults}
    {fp base : PyPath} {fi : FileInfo} {st : SyncState} {now : Nat}
    {uuidStr : String} {newId : Nat} {b : List Nat}
    (hb : fi.bytes = some b) (hstat : fi.statOk = true)
    (hep : alistGet st.path_map (folderPathOf fp base, fp.name) = none) :
    process_single_file env faults fp base fi st now uuidStr newId
      = registrarUploadBranch faults fp fi st now uuidStr newId
          (mdOf env fp base fi) (env.sha256hex b) none := by
  unfold process_single_file compute_hash_streaming
  rw [hb, extract_some hstat]
  simp only [Option.map_some', mdOf, hep]

theorem rub_upload_failed {faults : ClientFaults} {fp : PyPath}
    {fi : FileInfo} {st : SyncState} {now : Nat} {uuidStr : String}
    {newId : Nat} {md : Metadata} {h : String} {ep : Option PathEntry} {b : List Nat}
    (hb : fi.bytes = some b)
    (hfail : ¬ (faults.uploadOk = true ∧
      (alistGet st.storage (uuidStr ++ lowerStr fp.suffix)).isNone = true)) :
    registrarUploadBranch faults fp fi st now uuidStr newId md h ep
      = ⟨fp.name, "error", "upload failed", st⟩ := by
  unfold registrarUploadBranch
  rw [hb]
  simp only
  rw [if_neg (by simpa using hfail)]

theorem rub_upload_failed_no_bytes {faults : ClientFaults} {fp : PyPath}
    {fi : FileInfo} {st : SyncState} {now : Nat} {uuidStr : String}
    {newId : Nat} {md : Metadata} {h : String} {ep : Option PathEntry}
    (hb : fi.bytes = none) :
    registrarUploadBranch faults fp fi st now uuidStr newId md h ep
      = ⟨fp.name, "error", "upload failed", st⟩ := by
  unfold registrarUploadBranch
  rw [hb]

theorem rub_upsert_failed {faults : ClientFaults} {fp : PyPath}
    {fi : FileInfo} {st : SyncState} {now : Nat} {uuidStr : String}
    {newId : Nat} {md : Metadata} {h : String} {ep : Option PathEntry} {b : List Nat}
    (hb : fi.bytes = some b)
    (hup : faults.uploadOk = true)
    (hfresh : (alistGet st.storage (uuidStr ++ lowerStr fp.suffix)).isNone = true)
    (hups : faults.upsertOk = false) :
    registrarUploadBranch faults fp fi st now uuidStr newId md h ep
      = ⟨fp.name, "error", "db upsert failed",
          { st with storage :=
              if ep = none ∧ faults.removeOk = true then
                ((st.storage ++ [(uuidStr ++ lowerStr fp.suffix, b)]).filter
                  (fun p => p.1 ≠ uuidStr ++ lowerStr fp.suffix))
              else st.storage ++ [(uuidStr ++ lowerStr fp.suffix, b)] }⟩ := by
  unfold registrarUploadBranch
  rw [hb]
  simp only
  rw [if_pos (by simp [hup, hfresh]), if_neg (by simp [hups])]

theorem rub_upserted {faults : ClientFaults} {fp : PyPath}
    {fi : FileInfo} {st : SyncState} {now : Nat} {uuidStr : String}
    {newId : Nat} {md : Metadata} {h : String} {ep : Option PathEntry} {b : List Nat}
    (hb : fi.bytes = some b)
    (hup : faults.uploadOk = true)
    (hfresh : (alistGet st.storage (uuidStr ++ lowerStr fp.suffix)).isNone = true)
    (hups : faults.upsertOk = true) :
    ∃ files' hash' path',
      registrarUploadBranch faults fp fi st now uuidStr newId md h ep
        = ⟨fp.name, "uploaded",
            "upserted → " ++ toString
              (((st.files.find? (fun r =>
                  r.meta.folder_path == md.folder_path &&
                    r.meta.filename == fp.name)).map (fun r => r.id)).getD newId),
            ⟨files', st.storage ++ [(uuidStr ++ lowerStr fp.suffix, b)], hash', path'⟩⟩ := by
  unfold registrarUploadBranch
  rw [hb]
  simp only
  rw [if_pos (by simp [hup, hfresh]), if_pos (by simp [hups])]
  exact ⟨_, _, _, rfl⟩

theorem rub_action_mem {faults : ClientFaults} {fp : PyPath}
    {fi : FileInfo} {st : SyncState} {now : Nat} {uuidStr : String}
    {newId : Nat} {md : Metadata} {h : String} {ep : Option PathEntry} :
    (registrarUploadBranch faults fp fi st now uuidStr newId md h ep).action = "error" ∨
      (registrarUploadBranch faults fp fi st now uuidStr newId md h ep).action
        = "uploaded" := by
  unfold registrarUploadBranch
  cases fi.bytes with
  | none => exact Or.inl rfl
  | some b =>
    simp only
    split
    · split
      · exact Or.inr rfl
      · exact Or.inl rfl
    · exact Or.inl rfl

theorem rub_uploaded_props {faults : ClientFaults} {fp : PyPath}
    {fi : FileInfo} {st : SyncState} {now : Nat} {uuidStr : String}
    {newId : Nat} {md : Metadata} {h : String} {ep : Option PathEntry} {b : List Nat}
    (hb : fi.bytes = some b)
    (hup : faults.uploadOk = true)
    (hfresh : (alistGet st.storage (uuidStr ++ lowerStr fp.suffix)).isNone = true)
    (hups : faults.upsertOk = true) :
    (registrarUploadBranch faults fp fi st now uuidStr newId md h ep).action
        = "uploaded" ∧
      ∃ row ∈ (registrarUploadBranch faults fp fi st now uuidStr newId md h ep).state.files,
        row.meta = md ∧ row.content_hash = some h ∧ row.deleted_at = none ∧
          row.last_seen_at = now := by
  unfold registrarUploadBranch
  rw [hb]
  simp only
  rw [if_pos (by simp [hup, hfresh]), if_pos (by simp [hups])]
  refine ⟨rfl, ?_⟩
  simp only
  cases hfind : st.files.find? (fun r =>
      r.meta.folder_path == md.folder_path && r.meta.filename == fp.name) with
  | none =>
    refine ⟨⟨newId, some h, some (uuidStr ++ lowerStr fp.suffix), now, none, now, md⟩, ?_, rfl, rfl, rfl, rfl⟩
    simp [hfind]
  | some r0 =>
    simp only [hfind]
    have hpred := List.find?_some hfind
    have hr0 : r0 ∈ st.files := List.mem_of_find?_eq_some hfind
    refine ⟨{ r0 with
                content_hash := some h,
                storage_path := some (uuidStr ++ lowerStr fp.suffix),
                last_seen_at := now, deleted_at := none, db_updated_at := now,
                meta := md },
      List.mem_map.mpr ⟨r0, hr0, by simp only [hpred, if_true]⟩, rfl, rfl, rfl, rfl⟩

theorem rub_action_message_eq {faults : ClientFaults} {fp : PyPath}
    {fi fi' : FileInfo} {st : SyncState} {now : Nat} {uuidStr : String}
    {newId : Nat} {md md' : Metadata} {h : String} {ep : Option PathEntry}
    (hb : fi'.bytes = fi.bytes) (hfp : md'.folder_path = md.folder_path) :
    (registrarUploadBranch faults fp fi' st now uuidStr newId md' h ep).action
        = (registrarUploadBranch faults fp fi st now uuidStr newId md h ep).action ∧
      (registrarUploadBranch faults fp fi' st now uuidStr newId md' h ep).message
        = (registrarUploadBranch faults fp fi st now uuidStr newId md h ep).message := by
  unfold registrarUploadBranch
  rw [hb, hfp]
  cases fi.bytes with
  | none => exact ⟨rfl, rfl⟩
  | some b =>
    simp only
    split
    · split
      · exact ⟨rfl, rfl⟩
      · exact ⟨rfl, rfl⟩
    · exact ⟨rfl, rfl⟩

theorem filter_append_key {m : List (String × List Nat)} {k : String}
    {v : List Nat} (hfresh : (alistGet m k).isNone = true) :
    (m ++ [(k, v)]).filter (fun p => p.1 ≠ k) = m := by
  rw [List.filter_append]
  have h2 : ([(k, v)] : List (String × List Nat)).filter (fun p => p.1 ≠ k) = [] := by
    simp
  rw [h2, List.append_nil, List.filter_eq_self]
  intro p hp
  simp only [alistGet, Option.isNone_iff_eq_none, Option.map_eq_none', List.find?_eq_none] at hfresh
  simpa using hfresh p hp

/-! ## Claim C1 -/

/-- C1, counterexample: a soft-deleted path reappears with unchanged content;
`process_single_file` returns the non-error action `unchanged` but only
touches `last_seen_at` — `deleted_at` stays set, so the record is not
resurrected and does not satisfy `deleted_at = null`. -/
theorem claim1_counterexample :
    (process_single_file envX faultsOk fpX baseX fiX stX 10 "u-1" 2).action
        = "unchanged" ∧
      (process_single_file envX faultsOk fpX baseX fiX stX 10 "u-1" 2).state.files
        = [{ rowX with last_seen_at := 10 }] ∧
      rowX.deleted_at = some 5 := by
  decide

/-- C1, amended: when `process_single_file` returns `uploaded`, the files
table afterwards holds a row for the path (its `(folder_path, filename)`
key) whose `content_hash` is the SHA-256 digest of the file's bytes and
whose `deleted_at` is null; but when it returns `unchanged` — the other
non-error action — it writes no `deleted_at`, so a previously soft-deleted
path that reappears with unchanged content is NOT resurrected. -/
theorem claim1_registrar_record (env : PyEnv) (faults : ClientFaults)
    (fp base : PyPath) (fi : FileInfo) (st : SyncState) (now : Nat)
    (uuidStr : String) (newId : Nat) :
    ((process_single_file env faults fp base fi st now uuidStr newId).action
        = "uploaded" →
      ∃ b, fi.bytes = some b ∧
        ∃ row ∈ (process_single_file env faults fp base fi st now uuidStr newId).state.files,
          row.meta.folder_path = folderPathOf fp base ∧
            row.meta.filename = fp.name ∧
            row.content_hash = some (env.sha256hex b) ∧
            row.deleted_at = none) ∧
      ((process_single_file env faults fp base fi st now uuidStr newId).action
          = "unchanged" →
        (process_single_file env faults fp base fi st now uuidStr newId).state.files.map
            (fun row => row.deleted_at)
          = st.files.map (fun row => row.deleted_at)) := by
  cases hbb : fi.bytes with
  | none =>
    rw [psf_hash_failed hbb]
    exact ⟨fun hc => absurd hc (by decide : ("error" : String) ≠ "uploaded"),
      fun hc => absurd hc (by decide : ("error" : String) ≠ "unchanged")⟩
  | some b =>
    cases hst : fi.statOk with
    | false =>
      rw [psf_meta_failed hbb hst]
      exact ⟨fun hc => absurd hc (by decide : ("error" : String) ≠ "uploaded"),
        fun hc => absurd hc (by decide : ("error" : String) ≠ "unchanged")⟩
    | true =>
      have hup_branch : ∀ ep : Option PathEntry,
          ((registrarUploadBranch faults fp fi st now uuidStr newId
              (mdOf env fp base fi) (env.sha256hex b) ep).action = "uploaded" →
            ∃ b', (some b : Option (List Nat)) = some b' ∧
              ∃ row ∈ (registrarUploadBranch faults fp fi st now uuidStr newId
                  (mdOf env fp base fi) (env.sha256hex b) ep).state.files,
                row.meta.folder_path = folderPathOf fp base ∧
                  row.meta.filename = fp.name ∧
                  row.content_hash = some (env.sha256hex b') ∧
                  row.deleted_at = none) ∧
          ((registrarUploadBranch faults fp fi st now uuidStr newId
              (mdOf env fp base fi) (env.sha256hex b) ep).action = "unchanged" →
            (registrarUploadBranch faults fp fi st now uuidStr newId
                (mdOf env fp base fi) (env.sha256hex b) ep).state.files.map
                (fun row => row.deleted_at)
              = st.files.map (fun row => row.deleted_at)) := by
        intro ep
        constructor
        · intro hup
          by_cases hok : faults.uploadOk = true ∧
              (alistGet st.storage (uuidStr ++ lowerStr fp.suffix)).isNone = true
          · by_cases hups : faults.upsertOk = true
            · obtain ⟨-, row, hrow, hmeta, hhash, hdel, -⟩ :=
                rub_uploaded_props hbb hok.1 hok.2 hups
              exact ⟨b, rfl, row, hrow, by rw [hmeta]; rfl, by rw [hmeta]; rfl,
                hhash, hdel⟩
            · rw [rub_upsert_failed hbb hok.1 hok.2
                (by simpa using hups)] at hup
              exact absurd hup (by decide : ("error" : String) ≠ "uploaded")
          · rw [rub_upload_failed hbb (by simpa using hok)] at hup
            exact absurd hup (by decide : ("error" : String) ≠ "uploaded")
        · intro hc
          rcases rub_action_mem with h | h
          · rw [h] at hc
            exact absurd hc (by decide : ("error" : String) ≠ "unchanged")
          · rw [h] at hc
            exact absurd hc (by decide : ("uploaded" : String) ≠ "unchanged")
      cases hep : alistGet st.path_map (folderPathOf fp base, fp.name) with
      | some ep =>
        by_cases hh : ep.content_hash = some (env.sha256hex b)
        · cases hu : faults.updateLastSeenOk with
          | true =>
            rw [psf_unchanged hbb hst hep hh hu]
            refine ⟨fun hc => absurd hc
              (by decide : ("unchanged" : String) ≠ "uploaded"), fun _ => ?_⟩
            simp only [List.map_map]
            refine List.map_congr_left ?_
            intro r _
            simp only [Function.comp_apply]
            split <;> rfl
          | false =>
            rw [psf_unchanged_touch_failed hbb hst hep hh hu]
            exact ⟨fun hc => absurd hc
              (by decide : ("unchanged" : String) ≠ "uploaded"), fun _ => rfl⟩
        · rw [psf_changed hbb hst hep hh]
          exact hup_branch (some ep)
      | none =>
        rw [psf_new_path hbb hst hep]
        exact hup_branch none

/-- Witness for C1: on an empty database the registration of `fpX` returns
`uploaded` and the inserted row carries the digest and `deleted_at = null`;
on `stX` it returns `unchanged` and preserves every `deleted_at`. -/
theorem claim1_witness :
    (∃ b, fiX.bytes = some b ∧
      ∃ row ∈ (process_single_file envX faultsOk fpX baseX fiX stEmpty 10 "u-1" 2).state.files,
        row.meta.folder_path = folderPathOf fpX baseX ∧
          row.meta.filename = fpX.name ∧
          row.content_hash = some (envX.sha256hex b) ∧
          row.deleted_at = none) ∧
      (process_single_file envX faultsOk fpX baseX fiX stX 10 "u-1" 2).state.files.map
          (fun row => row.deleted_at)
        = stX.files.map (fun row => row.deleted_at) :=
  ⟨(claim1_registrar_record envX faultsOk fpX baseX fiX stEmpty 10 "u-1" 2).1
      (by decide),
    (claim1_registrar_record envX faultsOk fpX baseX fiX stX 10 "u-1" 2).2
      (by decide)⟩

/-! ## Claim C2 -/

/-- C2, counterexample: a 2 GiB file reached through a symlink whose
resolution escapes the source base is neither skipped with `symlink escape`
nor with `too large`: it is hashed and its blob is uploaded. -/
theorem claim2_counterexample :
    fiSymlinkEscape.isSymlink = true ∧
      fiSymlinkEscape.resolvedEscapesBase = true ∧
      fiSymlinkEscape.size > 1024 * 1024 * 1024 ∧
      (process_single_file envX faultsOk fpX baseX fiSymlinkEscape stEmpty 10 "u-1" 2).action
        = "uploaded" ∧
      (process_single_file envX faultsOk fpX baseX fiSymlinkEscape stEmpty 10 "u-1" 2).state.storage
        = [("u-1.txt", [7])] := by
  decide

theorem psf_action_mem (env : PyEnv) (faults : ClientFaults)
    (fp base : PyPath) (fi : FileInfo) (st : SyncState) (now : Nat)
    (uuidStr : String) (newId : Nat) :
    (process_single_file env faults fp base fi st now uuidStr newId).action = "error" ∨
      (process_single_file env faults fp base fi st now uuidStr newId).action = "unchanged" ∨
      (process_single_file env faults fp base fi st now uuidStr newId).action = "uploaded" := by
  cases hbb : fi.bytes with
  | none =>
    rw [psf_hash_failed hbb]
    exact Or.inl rfl
  | some b =>
    cases hst : fi.statOk with
    | false =>
      rw [psf_meta_failed hbb hst]
      exact Or.inl rfl
    | true =>
      cases hep : alistGet st.path_map (folderPathOf fp base, fp.name) with
      | some ep =>
        by_cases hh : ep.content_hash = some (env.sha256hex b)
        · cases hu : faults.updateLastSeenOk with
          | true =>
            rw [psf_unchanged hbb hst hep hh hu]
            exact Or.inr (Or.inl rfl)
          | false =>
            rw [psf_unchanged_touch_failed hbb hst hep hh hu]
            exact Or.inr (Or.inl rfl)
        · rw [psf_changed hbb hst hep hh]
          rcases @rub_action_mem faults fp fi st now uuidStr newId
              (mdOf env fp base fi) (env.sha256hex b) (some ep) with h | h
          · exact Or.inl h
          · exact Or.inr (Or.inr h)
      | none =>
        rw [psf_new_path hbb hst hep]
        rcases @rub_action_mem faults fp fi st now uuidStr newId
            (mdOf env fp base fi) (env.sha256hex b) none with h | h
        · exact Or.inl h
        · exact Or.inr (Or.inr h)

theorem psf_action_message_eq (env : PyEnv) (faults : ClientFaults)
    (fp base : PyPath) (fi fi2 : FileInfo) (st : SyncState) (now : Nat)
    (uuidStr : String) (newId : Nat)
    (hb : fi2.bytes = fi.bytes) (hs : fi2.statOk = fi.statOk) :
    (process_single_file env faults fp base fi2 st now uuidStr newId).action
        = (process_single_file env faults fp base fi st now uuidStr newId).action ∧
      (process_single_file env faults fp base fi2 st now uuidStr newId).message
        = (process_single_file env faults fp base fi st now uuidStr newId).message := by
  cases hbb : fi.bytes with
  | none =>
    rw [psf_hash_failed hbb, psf_hash_failed (hb.trans hbb)]
    exact ⟨rfl, rfl⟩
  | some b =>
    have hbb2 : fi2.bytes = some b := hb.trans hbb
    cases hst : fi.statOk with
    | false =>
      rw [psf_meta_failed hbb hst, psf_meta_failed hbb2 (hs.trans hst)]
      exact ⟨rfl, rfl⟩
    | true =>
      have hst2 : fi2.statOk = true := hs.trans hst
      cases hep : alistGet st.path_map (folderPathOf fp base, fp.name) with
      | some ep =>
        by_cases hh : ep.content_hash = some (env.sha256hex b)
        · cases hu : faults.updateLastSeenOk with
          | true =>
            rw [psf_unchanged hbb hst hep hh hu, psf_unchanged hbb2 hst2 hep hh hu]
            exact ⟨rfl, rfl⟩
          | false =>
            rw [psf_unchanged_touch_failed hbb hst hep hh hu,
              psf_unchanged_touch_failed hbb2 hst2 hep hh hu]
            exact ⟨rfl, rfl⟩
        · rw [psf_changed hbb hst hep hh, psf_changed hbb2 hst2 hep hh]
          exact rub_action_message_eq (hbb2.trans hbb.symm) rfl
      | none =>
        rw [psf_new_path hbb hst hep, psf_new_path hbb2 hst2 hep]
        exact rub_action_message_eq (hbb2.trans hbb.symm) rfl

/-- C2, amended: `process_single_file` contains no security gate at all: its
action is always `error`, `unchanged` or `uploaded` (never a skip with
`symlink escape` or `too large`), and its `(action, message)` pair is
invariant under changing the symlink flag, the escape fact and the lstat
size. -/
theorem claim2_no_security_gate (env : PyEnv) (faults : ClientFaults)
    (fp base : PyPath) (fi : FileInfo) (st : SyncState) (now : Nat)
    (uuidStr : String) (newId : Nat) (x y : Bool) (n : Nat) :
    ((process_single_file env faults fp base fi st now uuidStr newId).action = "error" ∨
      (process_single_file env faults fp base fi st now uuidStr newId).action = "unchanged" ∨
      (process_single_file env faults fp base fi st now uuidStr newId).action = "uploaded") ∧
    ((process_single_file env faults fp base
        { fi with isSymlink := x, resolvedEscapesBase := y, size := n }
        st now uuidStr newId).action
      = (process_single_file env faults fp base fi st now uuidStr newId).action) ∧
    ((process_single_file env faults fp base
        { fi with isSymlink := x, resolvedEscapesBase := y, size := n }
        st now uuidStr newId).message
      = (process_single_file env faults fp base fi st now uuidStr newId).message) :=
  ⟨psf_action_mem env faults fp base fi st now uuidStr newId,
    (psf_action_message_eq env faults fp base fi
      { fi with isSymlink := x, resolvedEscapesBase := y, size := n }
      st now uuidStr newId rfl rfl).1,
    (psf_action_message_eq env faults fp base fi
      { fi with isSymlink := x, resolvedEscapesBase := y, size := n }
      st now uuidStr newId rfl rfl).2⟩

/-! ## Claim C9 -/

/-- C9, counterexample: registration of a brand-new path whose DB upsert
fails, once with the storage removal succeeding (the uploaded blob is gone
afterwards) and once with the removal also raising (the blob is still there).
The difference exhibits the cleanup: the code removes state already written
by the earlier upload step, contradicting "no partial rollback". -/
theorem claim9_counterexample :
    (process_single_file envX faultsNoUpsert fpX baseX fiX stEmpty 10 "u-1" 2).action
        = "error" ∧
      (process_single_file envX faultsNoUpsert fpX baseX fiX stEmpty 10 "u-1" 2).state.storage
        = [] ∧
      (process_single_file envX faultsNoUpsertNoRemove fpX baseX fiX stEmpty 10 "u-1" 2).state.storage
        = [("u-1.txt", [7])] := by
  decide

/-- C9, amended: when the DB upsert raises, the path is reported as `error`
with the `db upsert failed` message, and the files table and both snapshot
maps are untouched — but for a brand-new path the just-uploaded blob is
removed again (partial rollback of the blob); only for a pre-existing path
is nothing removed. -/
theorem claim9_failure_semantics (env : PyEnv) (faults : ClientFaults)
    (fp base : PyPath) (fi : FileInfo) (st : SyncState) (now : Nat)
    (uuidStr : String) (newId : Nat) (b : List Nat)
    (hb : fi.bytes = some b) (hstat : fi.statOk = true)
    (hup : faults.uploadOk = true)
    (hfresh : (alistGet st.storage (uuidStr ++ lowerStr fp.suffix)).isNone = true)
    (hups : faults.upsertOk = false) :
    (alistGet st.path_map (folderPathOf fp base, fp.name) = none →
      faults.removeOk = true →
      process_single_file env faults fp base fi st now uuidStr newId
        = ⟨fp.name, "error", "db upsert failed", st⟩) ∧
      (∀ ep : PathEntry,
        alistGet st.path_map (folderPathOf fp base, fp.name) = some ep →
        ep.content_hash ≠ some (env.sha256hex b) →
        process_single_file env faults fp base fi st now uuidStr newId
          = ⟨fp.name, "error", "db upsert failed",
              { st with storage := st.storage ++ [(uuidStr ++ lowerStr fp.suffix, b)] }⟩) := by
  constructor
  · intro hep hrem
    rw [psf_new_path hb hstat hep, rub_upsert_failed hb hup hfresh hups]
    rw [if_pos ⟨rfl, hrem⟩, filter_append_key hfresh]
  · intro ep hep hh
    rw [psf_changed hb hstat hep hh, rub_upsert_failed hb hup hfresh hups]
    rw [if_neg]
    rintro ⟨h1, -⟩
    exact Option.noConfusion h1

/-- Witness for C9: the brand-new-path conjunct at the concrete fixtures. -/
theorem claim9_witness :
    process_single_file envX faultsNoUpsert fpX baseX fiX stEmpty 10 "u-1" 2
      = ⟨"a.txt", "error", "db upsert failed", stEmpty⟩ :=
  (claim9_failure_semantics envX faultsNoUpsert fpX baseX fiX stEmpty 10 "u-1" 2 [7]
      rfl rfl rfl (by decide) rfl).1 (by decide) rfl

/-! ## Claim C8 -/

/-- C8, counterexample: for a dangling symlink, the following `os.stat`
raises, so metadata extraction returns no metadata (the empty dict) rather
than succeeding, and the registrar reports the file as a per-file error. -/
theorem claim8_counterexample :
    fiDangling.isSymlink = true ∧
      extract_file_metadata envX fpX baseX fiDangling = none ∧
      (process_single_file envX faultsOk fpX baseX fiDangling stEmpty 10 "u-1" 2).action
        = "error" := by
  decide

/-- C8, amended: `extract_file_metadata` uses a FOLLOWING stat: when the stat
raises (dangling symlink) it returns no metadata, and for a dangling symlink
— whose open also raises — the registrar reports the per-file error
`hash failed` with the state untouched (the pipeline continues, nothing
propagates); when the stat succeeds, the symlink flag is recorded in
`fs_attributes`. -/
theorem claim8_following_stat (env : PyEnv) (faults : ClientFaults)
    (fp base : PyPath) (fi : FileInfo) (st : SyncState) (now : Nat)
    (uuidStr : String) (newId : Nat) :
    (fi.statOk = false → extract_file_metadata env fp base fi = none) ∧
      (fi.statOk = true →
        extract_file_metadata env fp base fi = some (mdOf env fp base fi) ∧
          (mdOf env fp base fi).filesystem_attributes.is_symlink = fi.isSymlink) ∧
      (fi.bytes = none →
        process_single_file env faults fp base fi st now uuidStr newId
          = ⟨fp.name, "error", "hash failed", st⟩) := by
  refine ⟨?_, ?_, ?_⟩
  · intro h
    unfold extract_file_metadata
    rw [h]
    rfl
  · intro h
    exact ⟨extract_some h, rfl⟩
  · intro h
    exact psf_hash_failed h

/-- Witness for C8: the stat-failure conjuncts at the dangling-symlink
fixture, and the symlink-flag conjunct at the regular-file fixture. -/
theorem claim8_witness :
    extract_file_metadata envX fpX baseX fiDangling = none ∧
      (extract_file_metadata envX fpX baseX fiX = some (mdOf envX fpX baseX fiX) ∧
        (mdOf envX fpX baseX fiX).filesystem_attributes.is_symlink = fiX.isSymlink) ∧
      process_single_file envX faultsOk fpX baseX fiDangling stEmpty 10 "u-1" 2
        = ⟨"a.txt", "error", "hash failed", stEmpty⟩ :=
  ⟨(claim8_following_stat envX faultsOk fpX baseX fiDangling stEmpty 10 "u-1" 2).1 rfl,
    (claim8_following_stat envX faultsOk fpX baseX fiX stEmpty 10 "u-1" 2).2.1 rfl,
    (claim8_following_stat envX faultsOk fpX baseX fiDangling stEmpty 10 "u-1" 2).2.2 rfl⟩

/-! ## Claim C3 -/

/-- C3, counterexample: a live row unseen since before the sweep whose full
path begins with the scanned root `/base`, but which was registered under the
nested root `/base/sub` (different `source_base`), satisfies the claim's
predicate yet is NOT soft-deleted by the sweep, because the PATCH filters on
`source_base` equality rather than on a path prefix.  The unused
`mark_deleted` of `src/postgrest.py` would have soft-deleted such a row. -/
theorem claim3_counterexample :
    rowSweep.last_seen_at < 10 ∧
      rowSweep.deleted_at = none ∧
      ("/base".data).isPrefixOf
        (rowSweep.meta.auto_extracted_metadata.original_path.data) = true ∧
      runSoftDeleteSweep [rowSweep] 10 ["/base"] = [rowSweep] ∧
      (mark_deleted [⟨"/base/sub/f.txt", some "h", 3, none⟩] "/base" 10 11).1
        = [⟨"/base/sub/f.txt", some "h", 3, some 11⟩] := by
  decide

/-- C3, amended: the sweep at the end of `run_full_scan` sets `deleted_at`
(to `scan_start`) exactly on the rows with `last_seen_at < scan_start`,
`deleted_at` null and whose recorded `source_base` EQUALS one of the scanned
roots (not: whose full path begins with the root prefix); every row with
`last_seen_at ≥ scan_start` is left untouched. -/
theorem claim3_sweep_characterization (rows : List FileRow) (scanStart : Nat)
    (roots : List String) :
    runSoftDeleteSweep rows scanStart roots
      = rows.map (fun r =>
          if r.last_seen_at < scanStart ∧ r.deleted_at = none ∧
              r.meta.auto_extracted_metadata.source_base ∈ roots then
            { r with deleted_at := some scanStart }
          else r) := by
  induction roots generalizing rows with
  | nil =>
    unfold runSoftDeleteSweep
    rw [List.foldl_nil]
    have h1 : rows.map (fun r =>
        if r.last_seen_at < scanStart ∧ r.deleted_at = none ∧
            r.meta.auto_extracted_metadata.source_base ∈ ([] : List String) then
          { r with deleted_at := some scanStart }
        else r) = rows.map id := by
      refine List.map_congr_left ?_
      intro r _
      rw [if_neg (by rintro ⟨-, -, h3⟩; exact absurd h3 (List.not_mem_nil _))]
      rfl
    rw [h1, List.map_id]
  | cons root rest ih =>
    unfold runSoftDeleteSweep at ih ⊢
    rw [List.foldl_cons, ih (sweepSoftDelete rows scanStart root)]
    unfold sweepSoftDelete
    rw [List.map_map]
    refine List.map_congr_left ?_
    intro r _
    simp only [Function.comp_apply]
    by_cases h1 : r.last_seen_at < scanStart
    · by_cases h2 : r.deleted_at = none
      · by_cases h3 : r.meta.auto_extracted_metadata.source_base = root
        · have hinner : (if r.last_seen_at < scanStart ∧ r.deleted_at = none ∧
                r.meta.auto_extracted_metadata.source_base = root then
              { r with deleted_at := some scanStart } else r)
              = { r with deleted_at := some scanStart } := if_pos ⟨h1, h2, h3⟩
          rw [hinner]
          rw [if_neg (fun hc => Option.some_ne_none scanStart hc.2.1)]
          rw [if_pos ⟨h1, h2, by rw [h3]; exact List.mem_cons_self _ _⟩]
        · have hinner : (if r.last_seen_at < scanStart ∧ r.deleted_at = none ∧
                r.meta.auto_extracted_metadata.source_base = root then
              { r with deleted_at := some scanStart } else r)
              = r := if_neg (fun hc => h3 hc.2.2)
          rw [hinner]
          by_cases h4 : r.meta.auto_extracted_metadata.source_base ∈ rest
          · rw [if_pos ⟨h1, h2, h4⟩, if_pos ⟨h1, h2, List.mem_cons_of_mem _ h4⟩]
          · rw [if_neg (fun hc => h4 hc.2.2)]
            rw [if_neg (fun hc => (List.mem_cons.mp hc.2.2).elim h3 h4)]
      · have hinner : (if r.last_seen_at < scanStart ∧ r.deleted_at = none ∧
              r.meta.auto_extracted_metadata.source_base = root then
            { r with deleted_at := some scanStart } else r)
            = r := if_neg (fun hc => h2 hc.2.1)
        rw [hinner]
        rw [if_neg (fun hc => h2 hc.2.1)]
        rw [if_neg (fun hc => h2 hc.2.1)]
    · have hinner : (if r.last_seen_at < scanStart ∧ r.deleted_at = none ∧
            r.meta.auto_extracted_metadata.source_base = root then
          { r with deleted_at := some scanStart } else r)
          = r := if_neg (fun hc => h1 hc.1)
      rw [hinner]
      rw [if_neg (fun hc => h1 hc.1)]
      rw [if_neg (fun hc => h1 hc.1)]

/-! ## Claim C4 -/

theorem rub_storage {faults : ClientFaults} {fp : PyPath} {fi : FileInfo}
    {st : SyncState} {now : Nat} {uuidStr : String} {newId : Nat}
    {md : Metadata} {h : String} {ep : Option PathEntry} {b : List Nat}
    (hb : fi.bytes = some b) :
    (registrarUploadBranch faults fp fi st now uuidStr newId md h ep).state.storage
        = st.storage ∨
      (registrarUploadBranch faults fp fi st now uuidStr newId md h ep).state.storage
        = st.storage ++ [(uuidStr ++ lowerStr fp.suffix, b)] := by
  by_cases hok : faults.uploadOk = true ∧
      (alistGet st.storage (uuidStr ++ lowerStr fp.suffix)).isNone = true
  · by_cases hups : faults.upsertOk = true
    · obtain ⟨files', hash', path', heq⟩ := rub_upserted hb hok.1 hok.2 hups
      rw [heq]
      exact Or.inr rfl
    · rw [rub_upsert_failed hb hok.1 hok.2 (by simpa using hups)]
      by_cases hrem : ep = none ∧ faults.removeOk = true
      · left
        show (if ep = none ∧ faults.removeOk = true then _ else _) = _
        rw [if_pos hrem, filter_append_key hok.2]
      · right
        show (if ep = none ∧ faults.removeOk = true then _ else _) = _
        rw [if_neg hrem]
  · rw [rub_upload_failed hb (by simpa using hok)]
    exact Or.inl rfl

theorem psf_storage (env : PyEnv) (faults : ClientFaults)
    (fp base : PyPath) (fi : FileInfo) (st : SyncState) (now : Nat)
    (uuidStr : String) (newId : Nat) :
    (process_single_file env faults fp base fi st now uuidStr newId).state.storage
        = st.storage ∨
      ∃ bs, fi.bytes = some bs ∧
        (process_single_file env faults fp base fi st now uuidStr newId).state.storage
          = st.storage ++ [(uuidStr ++ lowerStr fp.suffix, bs)] := by
  cases hbb : fi.bytes with
  | none =>
    rw [psf_hash_failed hbb]
    exact Or.inl rfl
  | some b =>
    cases hst : fi.statOk with
    | false =>
      rw [psf_meta_failed hbb hst]
      exact Or.inl rfl
    | true =>
      cases hep : alistGet st.path_map (folderPathOf fp base, fp.name) with
      | some ep =>
        by_cases hh : ep.content_hash = some (env.sha256hex b)
        · cases hu : faults.updateLastSeenOk with
          | true =>
            rw [psf_unchanged hbb hst hep hh hu]
            exact Or.inl rfl
          | false =>
            rw [psf_unchanged_touch_failed hbb hst hep hh hu]
            exact Or.inl rfl
        · rw [psf_changed hbb hst hep hh]
          rcases rub_storage hbb with hcase | hcase
          · exact Or.inl hcase
          · exact Or.inr ⟨b, rfl, hcase⟩
      | none =>
        rw [psf_new_path hbb hst hep]
        rcases rub_storage hbb with hcase | hcase
        · exact Or.inl hcase
        · exact Or.inr ⟨b, rfl, hcase⟩

theorem pu_missing {env : UpEnv} {faults : UpFaults} {item : UploadItem}
    {lf : LocalFile} {st0 : UploadStatus} (h : lf.pathExists = false) :
    process_upload env faults item lf st0
      = Except.ok ([UpEvent.markFailed item.content_hash "File missing on disk"],
          if faults.markFailedRpcOk then rpcFailedStatus else st0) := by
  unfold process_upload uploaderBody
  rw [h]
  rfl

theorem pu_stat_raised {env : UpEnv} {faults : UpFaults} {item : UploadItem}
    {lf : LocalFile} {st0 : UploadStatus}
    (h1 : lf.pathExists = true) (h2 : lf.statSize = none) :
    process_upload env faults item lf st0
      = Except.ok ([UpEvent.markFailed item.content_hash (env.statErrMsg.take 500)],
          if faults.markFailedRpcOk then rpcFailedStatus else st0) := by
  unfold process_upload uploaderBody
  rw [h1, h2]
  rfl

theorem pu_too_large {env : UpEnv} {faults : UpFaults} {item : UploadItem}
    {lf : LocalFile} {st0 : UploadStatus} {sz : Nat}
    (h1 : lf.pathExists = true) (h2 : lf.statSize = some sz)
    (h3 : sz > maxUploadSizeBytes) :
    process_upload env faults item lf st0
      = Except.ok ([UpEvent.markSkipped item.content_hash
            ("File too large: " ++ env.fmtMB sz ++ "MB (max 100MB)")],
          if faults.markSkippedRpcOk then UploadStatus.skipped else st0) := by
  unfold process_upload uploaderBody
  rw [h1, h2]
  simp only [if_pos h3]
  rfl

theorem pu_read_raised {env : UpEnv} {faults : UpFaults} {item : UploadItem}
    {lf : LocalFile} {st0 : UploadStatus} {sz : Nat}
    (h1 : lf.pathExists = true) (h2 : lf.statSize = some sz)
    (h3 : ¬ sz > maxUploadSizeBytes) (h4 : lf.bytes = none) :
    process_upload env faults item lf st0
      = Except.ok ([UpEvent.markFailed item.content_hash (env.readErrMsg.take 500)],
          if faults.markFailedRpcOk then rpcFailedStatus else st0) := by
  unfold process_upload uploaderBody
  rw [h1, h2, h4]
  simp only [if_neg h3]
  rfl

theorem pu_upload_raised {env : UpEnv} {faults : UpFaults} {item : UploadItem}
    {lf : LocalFile} {st0 : UploadStatus} {sz : Nat} {b : List Nat} {m : String}
    (h1 : lf.pathExists = true) (h2 : lf.statSize = some sz)
    (h3 : ¬ sz > maxUploadSizeBytes) (h4 : lf.bytes = some b)
    (h5 : faults.uploadErr = some m) :
    process_upload env faults item lf st0
      = Except.ok ([UpEvent.markFailed item.content_hash (m.take 500)],
          if faults.markFailedRpcOk then rpcFailedStatus else st0) := by
  unfold process_upload uploaderBody
  rw [h1, h2, h4, h5]
  simp only [if_neg h3]
  rfl

theorem pu_success {env : UpEnv} {faults : UpFaults} {item : UploadItem}
    {lf : LocalFile} {st0 : UploadStatus} {sz : Nat} {b : List Nat}
    (h1 : lf.pathExists = true) (h2 : lf.statSize = some sz)
    (h3 : ¬ sz > maxUploadSizeBytes) (h4 : lf.bytes = some b)
    (h5 : faults.uploadErr = none) (h6 : faults.markCompleteOk = true) :
    process_upload env faults item lf st0
      = Except.ok ([UpEvent.storagePut item.content_hash b
            ((env.guessMime item.full_path).getD "application/octet-stream") true,
          UpEvent.markComplete item.content_hash item.content_hash
            ((env.guessMime item.full_path).getD "application/octet-stream")],
          UploadStatus.uploaded) := by
  unfold process_upload uploaderBody
  rw [h1, h2, h4, h5, h6]
  simp only [if_neg h3, if_pos rfl]
  rfl

theorem pu_complete_raised {env : UpEnv} {faults : UpFaults} {item : UploadItem}
    {lf : LocalFile} {st0 : UploadStatus} {sz : Nat} {b : List Nat}
    (h1 : lf.pathExists = true) (h2 : lf.statSize = some sz)
    (h3 : ¬ sz > maxUploadSizeBytes) (h4 : lf.bytes = some b)
    (h5 : faults.uploadErr = none) (h6 : faults.markCompleteOk = false) :
    process_upload env faults item lf st0
      = Except.ok ([UpEvent.storagePut item.content_hash b
            ((env.guessMime item.full_path).getD "application/octet-stream") true,
          UpEvent.markFailed item.content_hash (env.completeErrMsg.take 500)],
          if faults.markFailedRpcOk then rpcFailedStatus else st0) := by
  unfold process_upload uploaderBody
  rw [h1, h2, h4, h5, h6]
  simp only [if_neg h3]
  rfl

theorem uploader_put_events (env : UpEnv) (faults : UpFaults)
    (item : UploadItem) (lf : LocalFile) (st0 : UploadStatus) :
    ∀ tr stt, process_upload env faults item lf st0 = Except.ok (tr, stt) →
      ∀ k bs ct up, UpEvent.storagePut k bs ct up ∈ tr →
        k = item.content_hash ∧ up = true ∧
          ct = (env.guessMime item.full_path).getD "application/octet-stream" := by
  intro tr stt hok k bs ct up hmem
  cases hpe : lf.pathExists with
  | false =>
    rw [pu_missing hpe] at hok
    simp only [Except.ok.injEq, Prod.mk.injEq] at hok
    obtain ⟨htr, -⟩ := hok
    subst htr
    simp only [List.mem_singleton] at hmem
    exact UpEvent.noConfusion hmem
  | true =>
    cases hss : lf.statSize with
    | none =>
      rw [pu_stat_raised hpe hss] at hok
      simp only [Except.ok.injEq, Prod.mk.injEq] at hok
      obtain ⟨htr, -⟩ := hok
      subst htr
      simp only [List.mem_singleton] at hmem
      exact UpEvent.noConfusion hmem
    | some sz =>
      by_cases hsz : sz > maxUploadSizeBytes
      · rw [pu_too_large hpe hss hsz] at hok
        simp only [Except.ok.injEq, Prod.mk.injEq] at hok
        obtain ⟨htr, -⟩ := hok
        subst htr
        simp only [List.mem_singleton] at hmem
        exact UpEvent.noConfusion hmem
      · cases hby : lf.bytes with
        | none =>
          rw [pu_read_raised hpe hss hsz hby] at hok
          simp only [Except.ok.injEq, Prod.mk.injEq] at hok
          obtain ⟨htr, -⟩ := hok
          subst htr
          simp only [List.mem_singleton] at hmem
          exact UpEvent.noConfusion hmem
        | some b =>
          cases herr : faults.uploadErr with
          | some m =>
            rw [pu_upload_raised hpe hss hsz hby herr] at hok
            simp only [Except.ok.injEq, Prod.mk.injEq] at hok
            obtain ⟨htr, -⟩ := hok
            subst htr
            simp only [List.mem_singleton] at hmem
            exact UpEvent.noConfusion hmem
          | none =>
            cases hmc : faults.markCompleteOk with
            | true =>
              rw [pu_success hpe hss hsz hby herr hmc] at hok
              simp only [Except.ok.injEq, Prod.mk.injEq] at hok
              obtain ⟨htr, -⟩ := hok
              subst htr
              rcases List.mem_cons.mp hmem with hmem | hmem
              · injection hmem with e1 e2 e3 e4
                exact ⟨e1, e4, e3⟩
              · simp only [List.mem_singleton] at hmem
                exact UpEvent.noConfusion hmem
            | false =>
              rw [pu_complete_raised hpe hss hsz hby herr hmc] at hok
              simp only [Except.ok.injEq, Prod.mk.injEq] at hok
              obtain ⟨htr, -⟩ := hok
              subst htr
              rcases List.mem_cons.mp hmem with hmem | hmem
              · injection hmem with e1 e2 e3 e4
                exact ⟨e1, e4, e3⟩
              · simp only [List.mem_singleton] at hmem
                exact UpEvent.noConfusion hmem

/-- C4, counterexample: the registrar's upload path in `src/sync.py` writes
the blob under `uuid4() + extension` — here `u-1.txt` — which is not the
content digest (`h`) and carries a filename extension, refuting "every blob
key is the extension-free lowercase hex digest". -/
theorem claim4_counterexample :
    (process_single_file envX faultsOk fpX baseX fiX stEmpty 10 "u-1" 2).state.storage
        = [("u-1.txt", [7])] ∧
      envX.sha256hex [7] = "h" ∧
      ("u-1.txt" : String) ≠ "h" := by
  decide

/-- C4, amended: the Uploader worker stores every blob under the key
`content_hash` with upsert semantics and extension-inferred content type,
but the registrar's own upload path stores blobs under a fresh
`uuid4() + extension` key — so it is not true of every blob the system
writes. -/
theorem claim4_storage_keys (uenv : UpEnv) (ufaults : UpFaults)
    (item : UploadItem) (lf : LocalFile) (st0 : UploadStatus)
    (env : PyEnv) (faults : ClientFaults) (fp base : PyPath) (fi : FileInfo)
    (st : SyncState) (now : Nat) (uuidStr : String) (newId : Nat) :
    (∀ tr stt, process_upload uenv ufaults item lf st0 = Except.ok (tr, stt) →
      ∀ k bs ct up, UpEvent.storagePut k bs ct up ∈ tr →
        k = item.content_hash ∧ up = true ∧
          ct = (uenv.guessMime item.full_path).getD "application/octet-stream") ∧
      ((process_single_file env faults fp base fi st now uuidStr newId).state.storage
          = st.storage ∨
        ∃ bs, fi.bytes = some bs ∧
          (process_single_file env faults fp base fi st now uuidStr newId).state.storage
            = st.storage ++ [(uuidStr ++ lowerStr fp.suffix, bs)]) :=
  ⟨uploader_put_events uenv ufaults item lf st0,
    psf_storage env faults fp base fi st now uuidStr newId⟩

/-- Witness for C4: the Uploader writes exactly one blob for `itemX` and its
key is the content hash with upsert semantics. -/
theorem claim4_witness :
    ("cafe" : String) = itemX.content_hash ∧ (true : Bool) = true ∧
      ("text/plain" : String)
        = (upEnvX.guessMime itemX.full_path).getD "application/octet-stream" :=
  (claim4_storage_keys upEnvX upFaultsOk itemX ⟨true, some 7, some [7]⟩
      UploadStatus.uploading envX faultsOk fpX baseX fiX stEmpty 10 "u-1" 2).1
    [UpEvent.storagePut "cafe" [7] "text/plain" true,
      UpEvent.markComplete "cafe" "cafe" "text/plain"]
    UploadStatus.uploaded rfl "cafe" [7] "text/plain" true (by decide)

/-! ## Claim C7 -/

/-- C7, counterexample: when the dequeued item's local path no longer exists
the Uploader records the failure message `File missing on disk`, not the
claim's literal `file missing`. -/
theorem claim7_counterexample :
    process_upload upEnvX upFaultsOk itemX ⟨false, some 7, some [7]⟩
        UploadStatus.uploading
      = Except.ok ([UpEvent.markFailed "cafe" "File missing on disk"],
          UploadStatus.pending) ∧
      ("File missing on disk" : String) ≠ "file missing" :=
  ⟨rfl, by decide⟩

/-- C7, amended: for every dequeued item, a missing local path leads to
`mark_upload_failed(hash, "File missing on disk")` (and nothing else); a
stat size above the 100 MiB limit leads to `mark_upload_skipped(hash,
reason)` with no storage PUT; and an upload exception leads to
`mark_upload_failed` with the message truncated to 500 characters. -/
theorem claim7_uploader_dispositions (env : UpEnv) (faults : UpFaults)
    (item : UploadItem) (lf : LocalFile) (st0 : UploadStatus) :
    (lf.pathExists = false →
      process_upload env faults item lf st0
        = Except.ok ([UpEvent.markFailed item.content_hash "File missing on disk"],
            if faults.markFailedRpcOk then rpcFailedStatus else st0)) ∧
      (∀ sz, lf.pathExists = true → lf.statSize = some sz →
        sz > maxUploadSizeBytes →
        process_upload env faults item lf st0
          = Except.ok ([UpEvent.markSkipped item.content_hash
                ("File too large: " ++ env.fmtMB sz ++ "MB (max 100MB)")],
              if faults.markSkippedRpcOk then UploadStatus.skipped else st0)) ∧
      (∀ sz b m, lf.pathExists = true → lf.statSize = some sz →
        ¬ sz > maxUploadSizeBytes → lf.bytes = some b →
        faults.uploadErr = some m →
        process_upload env faults item lf st0
          = Except.ok ([UpEvent.markFailed item.content_hash (m.take 500)],
              if faults.markFailedRpcOk then rpcFailedStatus else st0)) :=
  ⟨fun h => pu_missing h,
    fun _ h1 h2 h3 => pu_too_large h1 h2 h3,
    fun _ _ _ h1 h2 h3 h4 h5 => pu_upload_raised h1 h2 h3 h4 h5⟩

/-- Witness for C7: the three dispositions at concrete items — a missing
path, a 200 MB file, and an upload raising `boom`. -/
theorem claim7_witness :
    process_upload upEnvX upFaultsOk itemX ⟨false, some 7, some [7]⟩
        UploadStatus.uploading
      = Except.ok ([UpEvent.markFailed "cafe" "File missing on disk"],
          UploadStatus.pending) ∧
      process_upload upEnvX upFaultsOk itemX ⟨true, some 209715200, some [7]⟩
        UploadStatus.uploading
      = Except.ok ([UpEvent.markSkipped "cafe"
            ("File too large: " ++ upEnvX.fmtMB 209715200 ++ "MB (max 100MB)")],
          UploadStatus.skipped) ∧
      process_upload upEnvX ⟨some "boom", true, true, true⟩ itemX
        ⟨true, some 7, some [7]⟩ UploadStatus.uploading
      = Except.ok ([UpEvent.markFailed "cafe" (("boom" : String).take 500)],
          UploadStatus.pending) :=
  ⟨(claim7_uploader_dispositions upEnvX upFaultsOk itemX ⟨false, some 7, some [7]⟩
      UploadStatus.uploading).1 rfl,
    (claim7_uploader_dispositions upEnvX upFaultsOk itemX
      ⟨true, some 209715200, some [7]⟩ UploadStatus.uploading).2.1
      209715200 rfl rfl (by decide),
    (claim7_uploader_dispositions upEnvX ⟨some "boom", true, true, true⟩ itemX
      ⟨true, some 7, some [7]⟩ UploadStatus.uploading).2.2
      7 [7] "boom" rfl rfl (by decide) rfl rfl⟩

/-! ## Claim C10 -/

/-- C10: `process_upload` returns normally on every dequeued item — every
raising operation sits inside the `try`, the handler records the failure,
and `_mark_failed` / `_mark_skipped` swallow their own RPC failures — and
when the failure-recording RPCs fail the row's status either reached
`uploaded` or is left exactly as dequeued (`uploading`), which
`reset_stuck_uploads` later reverts to `pending`. -/
theorem claim10_no_propagation (env : UpEnv) (faults : UpFaults)
    (item : UploadItem) (lf : LocalFile) (st0 : UploadStatus) :
    (∃ out, process_upload env faults item lf st0 = Except.ok out) ∧
      (faults.markFailedRpcOk = false → faults.markSkippedRpcOk = false →
        ∀ tr stt, process_upload env faults item lf st0 = Except.ok (tr, stt) →
          stt = UploadStatus.uploaded ∨ stt = st0) ∧
      reset_stuck_uploads_status UploadStatus.uploading = UploadStatus.pending := by
  refine ⟨?_, ?_, rfl⟩
  · cases hpe : lf.pathExists with
    | false => exact ⟨_, pu_missing hpe⟩
    | true =>
      cases hss : lf.statSize with
      | none => exact ⟨_, pu_stat_raised hpe hss⟩
      | some sz =>
        by_cases hsz : sz > maxUploadSizeBytes
        · exact ⟨_, pu_too_large hpe hss hsz⟩
        · cases hby : lf.bytes with
          | none => exact ⟨_, pu_read_raised hpe hss hsz hby⟩
          | some b =>
            cases herr : faults.uploadErr with
            | some m => exact ⟨_, pu_upload_raised hpe hss hsz hby herr⟩
            | none =>
              cases hmc : faults.markCompleteOk with
              | true => exact ⟨_, pu_success hpe hss hsz hby herr hmc⟩
              | false => exact ⟨_, pu_complete_raised hpe hss hsz hby herr hmc⟩
  · intro hf hs tr stt hok
    cases hpe : lf.pathExists with
    | false =>
      rw [pu_missing hpe, if_neg (by simp [hf])] at hok
      simp only [Except.ok.injEq, Prod.mk.injEq] at hok
      exact Or.inr hok.2.symm
    | true =>
      cases hss : lf.statSize with
      | none =>
        rw [pu_stat_raised hpe hss, if_neg (by simp [hf])] at hok
        simp only [Except.ok.injEq, Prod.mk.injEq] at hok
        exact Or.inr hok.2.symm
      | some sz =>
        by_cases hsz : sz > maxUploadSizeBytes
        · rw [pu_too_large hpe hss hsz, if_neg (by simp [hs])] at hok
          simp only [Except.ok.injEq, Prod.mk.injEq] at hok
          exact Or.inr hok.2.symm
        · cases hby : lf.bytes with
          | none =>
            rw [pu_read_raised hpe hss hsz hby, if_neg (by simp [hf])] at hok
            simp only [Except.ok.injEq, Prod.mk.injEq] at hok
            exact Or.inr hok.2.symm
          | some b =>
            cases herr : faults.uploadErr with
            | some m =>
              rw [pu_upload_raised hpe hss hsz hby herr,
                if_neg (by simp [hf])] at hok
              simp only [Except.ok.injEq, Prod.mk.injEq] at hok
              exact Or.inr hok.2.symm
            | none =>
              cases hmc : faults.markCompleteOk with
              | true =>
                rw [pu_success hpe hss hsz hby herr hmc] at hok
                simp only [Except.ok.injEq, Prod.mk.injEq] at hok
                exact Or.inl hok.2.symm
              | false =>
                rw [pu_complete_raised hpe hss hsz hby herr hmc,
                  if_neg (by simp [hf])] at hok
                simp only [Except.ok.injEq, Prod.mk.injEq] at hok
                exact Or.inr hok.2.symm

/-- Witness for C10: the storage PUT raises `boom` and both
failure-recording RPCs also raise; the call still returns normally and the
row stays `uploading`. -/
theorem claim10_witness :
    (∃ out, process_upload upEnvX upFaultsAllBad itemX ⟨true, some 7, some [7]⟩
        UploadStatus.uploading = Except.ok out) ∧
      (UploadStatus.uploading = UploadStatus.uploaded ∨
        UploadStatus.uploading = UploadStatus.uploading) ∧
      reset_stuck_uploads_status UploadStatus.uploading = UploadStatus.pending :=
  ⟨(claim10_no_propagation upEnvX upFaultsAllBad itemX ⟨true, some 7, some [7]⟩
      UploadStatus.uploading).1,
    (claim10_no_propagation upEnvX upFaultsAllBad itemX ⟨true, some 7, some [7]⟩
      UploadStatus.uploading).2.1 rfl rfl
      [UpEvent.markFailed "cafe" (("boom" : String).take 500)]
      UploadStatus.uploading rfl,
    (claim10_no_propagation upEnvX upFaultsAllBad itemX ⟨true, some 7, some [7]⟩
      UploadStatus.uploading).2.2⟩

end FMS
